import Mathlib

/-!
Verification development for the cx_Freeze freezer module
(src/cx_Freeze/freezer.py).

The Python code is shallowly embedded: pure helpers become Lean
functions, the stateful copy machinery becomes explicit state passing
over a `CopyState`, filesystem facts (resolution, symlink status,
failure of individual syscalls) are supplied as explicit parameters,
and fallible operations return `Except`.  Paths are modelled
syntactically, exactly as pathlib PurePath treats them: an
absolute-flag plus a list of components, with purely textual
`relative_to` / `is_relative_to` / `match` semantics.
-/

/-! ## String helpers (Python str.split, str.isdigit, joining) -/

/-- Models Python str.split on the single separator character dot:
splits a character list at every dot, keeping empty pieces, so that
the empty string yields one empty piece. -/
def splitDot : List Char → List (List Char)
  | [] => [[]]
  | c :: rest =>
    match splitDot rest with
    | [] => [[]]
    | h :: t => if c = '.' then [] :: h :: t else (c :: h) :: t

/-- Models joining a list of pieces with a dot separator
(Python str.join with separator dot). -/
def joinDot : List (List Char) → List Char
  | [] => []
  | [p] => p
  | p :: rest => p ++ '.' :: joinDot rest

/-- Models Python str.isdigit restricted to ASCII digits: true when the
string is nonempty and every character is a digit.  The empty string is
not a digit string, exactly as in Python. -/
def pyIsDigit (s : List Char) : Bool :=
  !s.isEmpty && s.all (fun c => c.isDigit)

/-- The pop loop of Freezer._remove_version_numbers, acting on the
reversed list of dot-separated pieces: drops leading (originally
trailing) all-digit pieces and reports whether anything was dropped
(the tweaked flag of the source). -/
def popTrailingDigitsRev : List (List Char) → List (List Char) × Bool
  | [] => ([], false)
  | p :: rest =>
    if pyIsDigit p then ((popTrailingDigitsRev rest).1, true)
    else (p :: rest, false)

/-- Freezer._remove_version_numbers: splits the filename on dots, pops
trailing all-digit components, and rejoins when something was popped,
otherwise returns the filename unchanged. -/
def removeVersionNumbers (filename : String) : String :=
  let parts := splitDot filename.data
  let res := popTrailingDigitsRev parts.reverse
  if res.2 then String.mk (joinDot res.1.reverse) else filename

/-- os.path.normcase on a Posix system is the identity (the embedding
fixes the Posix variant; on Windows it would lowercase). -/
def os_path_normcase (s : String) : String := s

/-! ## Glob matching (fnmatch / PurePath.match) -/

/-- fnmatch-style matching of one pattern component against one path
component: a star matches any (possibly empty) run of characters, a
question mark matches exactly one character, every other character
matches itself.  (Character classes are not used by any rule considered
here and are not modelled.) -/
def fnmatchComp : List Char → List Char → Bool
  | [], s => s.isEmpty
  | c :: ps, s =>
    if c = '*' then s.tails.any (fun suffix => fnmatchComp ps suffix)
    else
      match s with
      | [] => false
      | d :: ds => (decide (c = '?') || decide (c = d)) && fnmatchComp ps ds

/-- fnmatch on strings. -/
def fnmatch (pat s : String) : Bool := fnmatchComp pat.data s.data

/-! ## The pathlib PurePath model -/

/-- A pathlib PurePath: an absolute-path flag plus the list of
components (the root marker is carried by the flag, not as a
component). -/
structure PurePath where
  absol : Bool
  parts : List String
deriving DecidableEq

/-- PurePath.name: the final component, or the empty string when there
is none (as for the root or the dot path). -/
def PurePath.name (p : PurePath) : String := p.parts.getLastD ""

/-- PurePath.parent: drops the final component; the root and the dot
path are their own parent. -/
def PurePath.parent (p : PurePath) : PurePath :=
  ⟨p.absol, p.parts.dropLast⟩

/-- PurePath.with_name: replaces the final component. -/
def PurePath.withName (p : PurePath) (n : String) : PurePath :=
  ⟨p.absol, p.parts.dropLast ++ [n]⟩

/-- The slash operator of pathlib: joining with an absolute path
discards the left operand, otherwise the components are concatenated. -/
def PurePath.join (p q : PurePath) : PurePath :=
  if q.absol then q else ⟨p.absol, p.parts ++ q.parts⟩

/-- When the first list is a component-wise prefix of the second,
returns the remaining components. -/
def dropPartsOf? : List String → List String → Option (List String)
  | [], l => some l
  | _ :: _, [] => none
  | a :: as, b :: bs => if a = b then dropPartsOf? as bs else none

/-- PurePath.relative_to as an Option: succeeds exactly when the other
path is a purely syntactic prefix (pathlib raises ValueError otherwise,
modelled as none). -/
def PurePath.relativeTo? (p q : PurePath) : Option PurePath :=
  if p.absol = q.absol then
    match dropPartsOf? q.parts p.parts with
    | some rest => some ⟨false, rest⟩
    | none => none
  else none

/-- PurePath.is_relative_to: the syntactic descendant test. -/
def PurePath.isRelativeTo (p q : PurePath) : Bool :=
  (p.relativeTo? q).isSome

/-- Component-wise fnmatch of a pattern part list against a path part
list of the same length. -/
def matchComps : List String → List String → Bool
  | [], [] => true
  | a :: as, b :: bs => fnmatch a b && matchComps as bs
  | _, _ => false

/-- PurePath.match: an absolute pattern must cover the whole path; a
relative pattern is matched against the trailing components.  The empty
pattern never matches (pathlib raises on it). -/
def PurePath.matchGlob (p : PurePath) (pat : PurePath) : Bool :=
  if pat.parts.isEmpty then false
  else if pat.absol then
    p.absol && decide (pat.parts.length = p.parts.length) &&
      matchComps pat.parts p.parts
  else
    decide (pat.parts.length ≤ p.parts.length) &&
      matchComps pat.parts (p.parts.drop (p.parts.length - pat.parts.length))

/-- Models the Python expression Path(*p.parts[:-k]).  Python parts
include the root marker as the first entry for absolute paths, and the
slice with k = 0 is empty (the Python slice [:-0] is [:0]). -/
def dropLastParts (p : PurePath) (k : Nat) : PurePath :=
  let n := (if p.absol then 1 else 0) + p.parts.length
  if k = 0 then ⟨false, []⟩
  else if n ≤ k then ⟨false, []⟩
  else if p.absol then ⟨true, p.parts.take (n - k - 1)⟩
  else ⟨false, p.parts.take (n - k)⟩

/-! ## Inclusion policy (Freezer._should_copy_file) -/

/-- The eight rule lists consulted by Freezer._should_copy_file:
user include/exclude by name, user include/exclude by directory, and
the platform-default counterparts. -/
structure BinPolicy where
  bin_includes : List PurePath
  bin_excludes : List PurePath
  bin_path_includes : List PurePath
  bin_path_excludes : List PurePath
  default_bin_includes : List PurePath
  default_bin_excludes : List PurePath
  default_bin_path_includes : List PurePath
  default_bin_path_excludes : List PurePath
deriving DecidableEq

/-- The first loop of _should_copy_file: some user include-by-name rule
matches the full path, the base filename, or the version-stripped
filename. -/
def binIncludesHit (cfg : BinPolicy)
    (path filename filename_noversion : PurePath) : Bool :=
  cfg.bin_includes.any fun binfile =>
    path.matchGlob binfile || filename.matchGlob binfile ||
      filename_noversion.matchGlob binfile

/-- The second loop of _should_copy_file: some user exclude-by-name rule
matches one of the three forms. -/
def binExcludesHit (cfg : BinPolicy)
    (path filename filename_noversion : PurePath) : Bool :=
  cfg.bin_excludes.any fun binfile =>
    path.matchGlob binfile || filename.matchGlob binfile ||
      filename_noversion.matchGlob binfile

/-- The user include-by-directory loop: the parent directory lies under
one of the listed directories. -/
def binPathIncludesHit (cfg : BinPolicy) (dirname : PurePath) : Bool :=
  cfg.bin_path_includes.any fun binpath => dirname.isRelativeTo binpath

/-- The user exclude-by-directory loop. -/
def binPathExcludesHit (cfg : BinPolicy) (dirname : PurePath) : Bool :=
  cfg.bin_path_excludes.any fun binpath => dirname.isRelativeTo binpath

/-- The platform-default include-by-name loop: matched against the full
path only. -/
def defaultBinIncludesHit (cfg : BinPolicy) (path : PurePath) : Bool :=
  cfg.default_bin_includes.any fun binfile => path.matchGlob binfile

/-- The platform-default exclude-by-name loop: matched against the
version-stripped filename only. -/
def defaultBinExcludesHit (cfg : BinPolicy)
    (filename_noversion : PurePath) : Bool :=
  cfg.default_bin_excludes.any fun binfile =>
    filename_noversion.matchGlob binfile

/-- The platform-default include-by-directory loop. -/
def defaultBinPathIncludesHit (cfg : BinPolicy) (dirname : PurePath) : Bool :=
  cfg.default_bin_path_includes.any fun binpath =>
    dirname.isRelativeTo binpath

/-- The platform-default exclude-by-directory loop. -/
def defaultBinPathExcludesHit (cfg : BinPolicy) (dirname : PurePath) : Bool :=
  cfg.default_bin_path_excludes.any fun binpath =>
    dirname.isRelativeTo binpath

/-- Freezer._should_copy_file: the layered include/exclude decision,
translated loop by loop from the source; each loop returns on its first
matching rule, and the fall-through result is inclusion. -/
def Freezer.shouldCopyFile (cfg : BinPolicy) (path : PurePath) : Bool :=
  let dirname := path.parent
  let filename : PurePath := ⟨false, [os_path_normcase path.name]⟩
  let filename_noversion : PurePath :=
    ⟨false, [removeVersionNumbers filename.name]⟩
  if binIncludesHit cfg path filename filename_noversion then true
  else if binExcludesHit cfg path filename filename_noversion then false
  else if binPathIncludesHit cfg dirname then true
  else if binPathExcludesHit cfg dirname then false
  else if defaultBinIncludesHit cfg path then true
  else if defaultBinExcludesHit cfg filename_noversion then false
  else if defaultBinPathIncludesHit cfg dirname then true
  else if defaultBinPathExcludesHit cfg dirname then false
  else true

/-- First-match evaluation of an ordered list of (rule-layer-hit,
decision) pairs, defaulting to inclusion when no layer matches.  This
follows the words of the specification for the inclusion policy. -/
def firstMatchDecision : List (Bool × Bool) → Bool
  | [] => true
  | (hit, decision) :: rest => if hit then decision else firstMatchDecision rest

/-- The eight decision layers of the specification, in its fixed order:
user include-by-name, user exclude-by-name, user include-by-directory,
user exclude-by-directory, then the four platform-default layers. -/
def shouldCopyLayers (cfg : BinPolicy) (path : PurePath) :
    List (Bool × Bool) :=
  let dirname := path.parent
  let filename : PurePath := ⟨false, [os_path_normcase path.name]⟩
  let filename_noversion : PurePath :=
    ⟨false, [removeVersionNumbers filename.name]⟩
  [(binIncludesHit cfg path filename filename_noversion, true),
   (binExcludesHit cfg path filename filename_noversion, false),
   (binPathIncludesHit cfg dirname, true),
   (binPathExcludesHit cfg dirname, false),
   (defaultBinIncludesHit cfg path, true),
   (defaultBinExcludesHit cfg filename_noversion, false),
   (defaultBinPathIncludesHit cfg dirname, true),
   (defaultBinPathExcludesHit cfg dirname, false)]

/-- The inclusion policy as the specification words it: first-match
evaluation over the ordered layers with default inclusion. -/
def shouldCopySpecOrdered (cfg : BinPolicy) (path : PurePath) : Bool :=
  firstMatchDecision (shouldCopyLayers cfg path)

/-- Follows the words of the spec sentence behind claim C6: every
include-by-name and exclude-by-name rule list, the platform-default
lists included, is matched against the full path, the base filename,
and the version-stripped filename.  Kept for comparison with the
decision function translated from the source. -/
def shouldCopyFileAllForms (cfg : BinPolicy) (path : PurePath) : Bool :=
  let dirname := path.parent
  let filename : PurePath := ⟨false, [os_path_normcase path.name]⟩
  let filename_noversion : PurePath :=
    ⟨false, [removeVersionNumbers filename.name]⟩
  if binIncludesHit cfg path filename filename_noversion then true
  else if binExcludesHit cfg path filename filename_noversion then false
  else if binPathIncludesHit cfg dirname then true
  else if binPathExcludesHit cfg dirname then false
  else if cfg.default_bin_includes.any (fun binfile =>
      path.matchGlob binfile || filename.matchGlob binfile ||
        filename_noversion.matchGlob binfile) then true
  else if cfg.default_bin_excludes.any (fun binfile =>
      path.matchGlob binfile || filename.matchGlob binfile ||
        filename_noversion.matchGlob binfile) then false
  else if defaultBinPathIncludesHit cfg dirname then true
  else if defaultBinPathExcludesHit cfg dirname then false
  else true

/-! ## Dependent-target computation (per-platform _post_copy_hook) -/

/-- The local variable dependent_target of WinFreezer._post_copy_hook
before the lib-subtree check: the relative-layout case, the
platform-binary-path case, the upper-level case and the fallback, in
source order. -/
def winDependentTargetRaw (library_dir : PurePath)
    (platform_bin_path : List PurePath)
    (source_dir target_dir : PurePath)
    (dependent_source : PurePath) : PurePath :=
  let dependent_name := dependent_source.name
  match dependent_source.relativeTo? source_dir with
  | some relative => target_dir.join relative
  | none =>
    let dependent_srcdir := dependent_source.parent
    if dependent_srcdir ∈ platform_bin_path then
      library_dir.join ⟨false, [dependent_name]⟩
    else
      match source_dir.relativeTo? dependent_srcdir with
      | some relative =>
        (dropLastParts target_dir relative.parts.length).join
          ⟨false, [dependent_name]⟩
      | none => target_dir.join ⟨false, [dependent_name]⟩

/-- The dependent-target computation of WinFreezer._post_copy_hook for
one dependent, translated from the source: an explicit lib_files
override wins; otherwise the relative-layout, platform-binary-path and
upper-level cases are tried in order, and any result that escapes the
lib subtree is clamped back to library_dir / dependent_name.  The
dependent source path is the already-resolved path of the dependent. -/
def winComputeDependentTarget (target_dir_root : PurePath)
    (lib_files : PurePath → Option PurePath)
    (platform_bin_path : List PurePath)
    (source_dir target_dir : PurePath)
    (dependent_source : PurePath) : PurePath :=
  let library_dir := target_dir_root.join ⟨false, ["lib"]⟩
  let dependent_name := dependent_source.name
  match lib_files dependent_source with
  | some lib_file => target_dir_root.join lib_file
  | none =>
    let dependent_target := winDependentTargetRaw library_dir
      platform_bin_path source_dir target_dir dependent_source
    if dependent_target.isRelativeTo library_dir then dependent_target
    else library_dir.join ⟨false, [dependent_name]⟩

/-- The dependent-target computation of LinuxFreezer._post_copy_hook
for one dependent, translated from the source: lib_files override,
then the relative-layout case, then placement beside the referencing
binary unless an already-copied file of the same name is found (in
which case that file is reused when it lies under the target
directory).  No clamping to the lib subtree is performed. -/
def linuxComputeDependentTarget (target_dir_root : PurePath)
    (lib_files : PurePath → Option PurePath)
    (files_copied : List PurePath)
    (source_dir target_dir : PurePath)
    (dependent_source : PurePath) : PurePath :=
  let dependent_name := dependent_source.name
  match lib_files dependent_source with
  | some lib_file => target_dir_root.join lib_file
  | none =>
    match dependent_source.relativeTo? source_dir with
    | some relative => target_dir.join relative
    | none =>
      match files_copied.find? (fun f => decide (f.name = dependent_name)) with
      | some file =>
        if file.isRelativeTo target_dir then file
        else target_dir.join ⟨false, [dependent_name]⟩
      | none => target_dir.join ⟨false, [dependent_name]⟩

/-- The dependent-target computation of DarwinFreezer._post_copy_hook:
every dependent is placed directly in the lib directory under its own
name. -/
def darwinComputeDependentTarget (target_dir_root : PurePath)
    (dependent : PurePath) : PurePath :=
  (target_dir_root.join ⟨false, ["lib"]⟩).join ⟨false, [dependent.name]⟩

/-! ## Copy state machine (Freezer._copy_file and hooks) -/

/-- The mutable copy state of a Freezer: the copied-target set
files_copied and the deferred-symlink set _symlinks, modelled as
duplicate-free insertion lists. -/
structure CopyState where
  files_copied : List PurePath
  symlinks : List (PurePath × PurePath × Bool)
deriving DecidableEq

/-- Python set.add: inserts unless already present. -/
def insertOnce {α : Type} [DecidableEq α] (a : α) (l : List α) : List α :=
  if a ∈ l then l else a :: l

/-- The filesystem facts the copy machinery consults: path resolution,
symlink status, link payload, and directory status. -/
structure FSModel where
  resolve : PurePath → PurePath
  is_symlink : PurePath → Bool
  readlink : PurePath → PurePath
  is_dir : PurePath → Bool

/-- Observable side effects of a freeze run: a byte copy of a source to
a target, or the materialization of a symbolic link at a target with a
given payload. -/
inductive CopyEvent where
  | copyBytes : PurePath → PurePath → CopyEvent
  | makeLink : PurePath → PurePath → CopyEvent
deriving DecidableEq

/-- The target path an event writes. -/
def CopyEvent.evTarget : CopyEvent → PurePath
  | .copyBytes _ t => t
  | .makeLink t _ => t

/-- Freezer._pre_copy_hook: resolves the source; when the source is a
symbolic link, records the (target, link payload, is-directory) triple
in the deferred-symlink set and redirects the copy to the resolved
real source under the real name. -/
def preCopyHook (fs : FSModel) (st : CopyState) (source target : PurePath) :
    PurePath × PurePath × CopyState :=
  let real_source := fs.resolve source
  if fs.is_symlink source then
    let symlink := fs.readlink source
    let real_target := target.withName symlink.name
    (real_source, real_target,
      { st with
        symlinks :=
          insertOnce (target, symlink, fs.is_dir real_source) st.symlinks })
  else (real_source, target, st)

/-- Freezer._copy_file with the platform-specific post-copy hook
abstracted as a parameter (the hook receives the state after the target
is recorded and returns the new state plus the events of the dependent
copies it performed).  Returns the new state and the byte-copy events,
in order.  Metadata copying and its failure mode are modelled
separately in copyFileExc. -/
def copyFileAux (fs : FSModel) (cfg : BinPolicy)
    (postHook : CopyState → PurePath → PurePath → Bool →
      CopyState × List CopyEvent)
    (st : CopyState) (source target : PurePath)
    (copy_dependent_files : Bool) : CopyState × List CopyEvent :=
  if !(Freezer.shouldCopyFile cfg source) then (st, [])
  else
    let pre := preCopyHook fs st source target
    let source1 := pre.1
    let target1 := pre.2.1
    let st1 := pre.2.2
    if target1 ∈ st1.files_copied then (st1, [])
    else if source1 = target1 then (st1, [])
    else
      let st2 := { st1 with
        files_copied := insertOnce target1 st1.files_copied }
      let hres := postHook st2 source1 target1 copy_dependent_files
      (hres.1, CopyEvent.copyBytes source1 target1 :: hres.2)

/-- A post-copy hook that copies no dependents (used to instantiate the
abstract hook in concrete runs). -/
def nullHook : CopyState → PurePath → PurePath → Bool →
    CopyState × List CopyEvent :=
  fun st _ _ _ => (st, [])

/-- A sequence of _copy_file requests threaded through the state,
accumulating events in order. -/
def runCopies (fs : FSModel) (cfg : BinPolicy)
    (postHook : CopyState → PurePath → PurePath → Bool →
      CopyState × List CopyEvent) :
    List (PurePath × PurePath × Bool) → CopyState →
      CopyState × List CopyEvent
  | [], st => (st, [])
  | (s, t, c) :: rest, st =>
    let r1 := copyFileAux fs cfg postHook st s t c
    let r2 := runCopies fs cfg postHook rest r1.1
    (r2.1, r1.2 ++ r2.2)

/-- Freezer._post_freeze_hook: materializes every deferred symbolic
link whose target does not already exist.  The existence test is a
filesystem fact supplied as a parameter. -/
def postFreezeHook (exists_at : PurePath → Bool) (st : CopyState) :
    List CopyEvent :=
  st.symlinks.filterMap fun tr =>
    if exists_at tr.1 then none else some (CopyEvent.makeLink tr.1 tr.2.1)

/-- A whole freeze run, as Freezer.freeze orders it: all copying first,
then the post-freeze pass that materializes deferred links. -/
def runFreeze (fs : FSModel) (cfg : BinPolicy)
    (postHook : CopyState → PurePath → PurePath → Bool →
      CopyState × List CopyEvent)
    (reqs : List (PurePath × PurePath × Bool)) (st : CopyState)
    (exists_at : PurePath → Bool) : CopyState × List CopyEvent :=
  let r := runCopies fs cfg postHook reqs st
  (r.1, r.2 ++ postFreezeHook exists_at r.1)

/-- The effective copy target after the pre-copy hook, which depends
only on the filesystem facts and the request (not on the state). -/
def preTargetOf (fs : FSModel) (source target : PurePath) : PurePath :=
  if fs.is_symlink source then target.withName (fs.readlink source).name
  else target

/-! ## Copy with failure modelling (Freezer._copy_file,
DarwinFreezer._copy_file_recursion) -/

/-- Which of the shutil calls made by the copy operation succeed, as
filesystem facts. -/
structure FSFaults where
  copyfile_ok : PurePath → PurePath → Bool
  copymode_ok : PurePath → PurePath → Bool
  copystat_ok : PurePath → PurePath → Bool

/-- An uncaught OSError aborting the copy, tagged with the failing
shutil call. -/
inductive CopyError where
  | osError : String → CopyError
deriving DecidableEq

/-- Freezer._copy_file with failure modelling: shutil.copyfile failure
always propagates; with include_mode, shutil.copymode and
shutil.copystat failures propagate as well; without include_mode, a
shutil.copystat failure is caught and reported as a warning string
while the copy still completes, records its target and runs the
post-copy hook. -/
def copyFileExc (fs : FSModel) (faults : FSFaults) (cfg : BinPolicy)
    (postHook : CopyState → PurePath → PurePath → Bool →
      CopyState × List CopyEvent)
    (st : CopyState) (source target : PurePath)
    (copy_dependent_files include_mode : Bool) :
    Except CopyError (CopyState × List CopyEvent × List String) :=
  if !(Freezer.shouldCopyFile cfg source) then .ok (st, [], [])
  else
    let pre := preCopyHook fs st source target
    let source1 := pre.1
    let target1 := pre.2.1
    let st1 := pre.2.2
    if target1 ∈ st1.files_copied then .ok (st1, [], [])
    else if source1 = target1 then .ok (st1, [], [])
    else if !(faults.copyfile_ok source1 target1) then
      .error (.osError "shutil.copyfile")
    else if include_mode && !(faults.copymode_ok source1 target1) then
      .error (.osError "shutil.copymode")
    else if include_mode && !(faults.copystat_ok source1 target1) then
      .error (.osError "shutil.copystat")
    else
      let warns :=
        if !include_mode && !(faults.copystat_ok source1 target1) then
          ["WARNING: unable to copy file metadata"]
        else []
      let st2 := { st1 with
        files_copied := insertOnce target1 st1.files_copied }
      let hres := postHook st2 source1 target1 copy_dependent_files
      .ok (hres.1, CopyEvent.copyBytes source1 target1 :: hres.2, warns)

/-- DarwinFreezer._copy_file_recursion with failure modelling: it runs
shutil.copyfile then shutil.copystat unguarded (then shutil.copymode
when include_mode), so a copystat failure propagates on this platform
variant.  The MachO reference bookkeeping, which does not affect the
copy or the copied-file set, is elided. -/
def darwinCopyFileRecursion (fs : FSModel) (faults : FSFaults)
    (cfg : BinPolicy)
    (postHook : CopyState → PurePath → PurePath → Bool →
      CopyState × List CopyEvent)
    (st : CopyState) (source target : PurePath)
    (copy_dependent_files include_mode : Bool) :
    Except CopyError (CopyState × List CopyEvent) :=
  if !(Freezer.shouldCopyFile cfg source) then .ok (st, [])
  else
    let pre := preCopyHook fs st source target
    let source1 := pre.1
    let target1 := pre.2.1
    let st1 := pre.2.2
    if target1 ∈ st1.files_copied then .ok (st1, [])
    else if source1 = target1 then .ok (st1, [])
    else if !(faults.copyfile_ok source1 target1) then
      .error (.osError "shutil.copyfile")
    else if !(faults.copystat_ok source1 target1) then
      .error (.osError "shutil.copystat")
    else if include_mode && !(faults.copymode_ok source1 target1) then
      .error (.osError "shutil.copymode")
    else
      let st2 := { st1 with
        files_copied := insertOnce target1 st1.files_copied }
      let hres := postHook st2 source1 target1 copy_dependent_files
      .ok (hres.1, CopyEvent.copyBytes source1 target1 :: hres.2)

/-! ## Freezer construction (target_dir setter, _populate_zip_options) -/

/-- Python str.partition at the first dot, first component: the prefix
of the string before its first dot. -/
def partitionDotHead (s : String) : String :=
  String.mk (s.data.takeWhile fun c => !(c = '.'))

/-- Freezer._populate_zip_options: applies the defaults when neither
option is given, rejects a star in both lists, normalizes every name
to its top-level package, and rejects any package present in both
normalized sets.  Errors are OptionError messages. -/
def populateZipOptions (zip_include_packages zip_exclude_packages :
    Option (List String)) :
    Except String (List String × List String × Bool) :=
  let given :=
    match zip_include_packages, zip_exclude_packages with
    | none, none => ([], ["*"])
    | zi, ze => (zi.getD [], ze.getD [])
  let zi := given.1
  let ze := given.2
  let zip_include_all_packages := "*" ∈ zi
  let zip_exclude_all_packages := "*" ∈ ze
  if zip_exclude_all_packages ∧ zip_include_all_packages then
    .error ("all packages cannot be included and excluded " ++
      "from the zip file at the same time")
  else
    let zi1 := (zi.map partitionDotHead).dedup
    let ze1 := (ze.map partitionDotHead).dedup
    let invalid := zi1.filter fun nm => nm ∈ ze1
    if invalid ≠ [] then
      .error "packages cannot be both included and excluded from zip file"
    else .ok (zi1, ze1, zip_include_all_packages)

/-- The target_dir setter of Freezer: the already-resolved output path
must not lie on the module search path, and a pre-existing directory at
it must be removable.  The absolute-path resolution and the rmtree
outcome are supplied as inputs. -/
def targetDirSetter (search_path : List PurePath) (path : PurePath)
    (is_dir rmtree_ok : Bool) : Except String PurePath :=
  if path ∈ search_path then
    .error "the build_exe directory cannot be used as search path"
  else if is_dir ∧ !rmtree_ok then
    .error "the build_exe directory cannot be cleaned"
  else .ok path

/-- The configuration inputs of Freezer.__init__ relevant to its
fatal checks. -/
structure InitConfig where
  search_path : List PurePath
  target_path : PurePath
  target_is_dir : Bool
  rmtree_ok : Bool
  zip_include_packages : Option (List String)
  zip_exclude_packages : Option (List String)

/-- The state a successfully constructed Freezer starts from. -/
structure FreezerState where
  target_dir : PurePath
  zip_include_packages : List String
  zip_exclude_packages : List String
  zip_include_all_packages : Bool
  files_copied : List PurePath
  symlinks : List (PurePath × PurePath × Bool)

/-- Freezer.__init__, reduced to its fatal configuration checks in
source order: the target_dir setter runs first, then
_populate_zip_options; the copied-file and deferred-symlink sets start
empty, so no copying has happened when construction returns. -/
def freezerInit (c : InitConfig) : Except String FreezerState :=
  match targetDirSetter c.search_path c.target_path c.target_is_dir
      c.rmtree_ok with
  | .error msg => .error msg
  | .ok td =>
    match populateZipOptions c.zip_include_packages
        c.zip_exclude_packages with
    | .error msg => .error msg
    | .ok z =>
      .ok { target_dir := td, zip_include_packages := z.1,
            zip_exclude_packages := z.2.1,
            zip_include_all_packages := z.2.2,
            files_copied := [], symlinks := [] }

/-! ## Archive post-pass (_write_modules tail) -/

/-- The filesystem actions of the post-pass at the end of
Freezer._write_modules. -/
inductive PostPassAction where
  | extractAll : PurePath → PurePath → PostPassAction
  | deleteArchive : PurePath → PostPassAction
  | renameArchive : PurePath → PurePath → PostPassAction
  | writeMarker : PurePath → String → PostPassAction
deriving DecidableEq

/-- The post-pass of Freezer._write_modules: when no zip output was
requested the freshly built archive is extracted into the lib
directory and deleted; otherwise it is renamed when the requested name
differs from the default and the marker file lib/library.dat is
written with the chosen archive filename as its entire content. -/
def writeModulesPostPass (target_dir : PurePath)
    (zip_filename : Option PurePath) : List PostPassAction :=
  let filename := target_dir.join ⟨false, ["lib", "library.zip"]⟩
  let target_lib_dir := filename.parent
  match zip_filename with
  | none =>
    [PostPassAction.extractAll filename target_lib_dir,
     PostPassAction.deleteArchive filename]
  | some zf =>
    (if zf.name ≠ filename.name then
      [PostPassAction.renameArchive filename zf]
    else []) ++
    [PostPassAction.writeMarker (target_dir.join ⟨false, ["lib", "library.dat"]⟩)
      zf.name]

/-! ## Bytecode serialization (_write_modules header) -/

/-- The four bytes of a 32-bit little-endian field. -/
def le32 (n : Nat) : List Nat :=
  [n % 256, n / 256 % 256, n / 65536 % 256, n / 16777216 % 256]

/-- struct.pack of one little-endian 32-bit signed int (format i):
two's complement encoding. -/
def packInt32 (i : Int) : List Nat := le32 ((i % (4294967296 : Int)).toNat)

/-- Reads a 32-bit little-endian field back. -/
def readLe32 : List Nat → Nat
  | [b0, b1, b2, b3] => b0 + 256 * b1 + 65536 * b2 + 16777216 * b3
  | _ => 0

/-- The bytecode header built in Freezer._write_modules: the
interpreter magic number followed by struct.pack of format
little-endian i, L, L applied to flags zero, the modification time and
the source size.  When the module file exists, mtime and size come
from its stat data masked to 32 bits (the mask 0xFFFFFFFF is % 2^32 on
naturals); otherwise mtime is the current time masked to 32 bits and
size is zero. -/
def writeModuleHeader (magic : List Nat)
    (file_stat : Option (Nat × Nat)) (now : Nat) : List Nat :=
  let ms :=
    match file_stat with
    | some st => (st.1 % 4294967296, st.2 % 4294967296)
    | none => (now % 4294967296, 0)
  magic ++ packInt32 0 ++ le32 ms.1 ++ le32 ms.2

/-- The serialized bytes of one code unit with a compiled payload:
header followed by the marshalled code payload. -/
def writeModuleData (magic : List Nat) (file_stat : Option (Nat × Nat))
    (now : Nat) (marshalled : List Nat) : List Nat :=
  writeModuleHeader magic file_stat now ++ marshalled

/-! ## Extension-module copy loop (PATH handling in _write_modules) -/

/-- Pointwise update of an environment at one variable. -/
def envSet (env : String → String) (k v : String) : String → String :=
  fun key => if key = k then v else env key

/-- Python os.pathsep.join. -/
def joinWithSep (sep : String) : List String → String
  | [] => ""
  | [s] => s
  | s :: rest => s ++ sep ++ joinWithSep sep rest

/-- One pass of the extension-module copy loop: for each entry, when
the module has a parent package, PATH is set to the original value
extended with the parent package path entries; the copy then runs (its
success is the Bool of the entry) and the finally block restores PATH
to the original value read before the loop.  A failing copy aborts the
loop after its finally block, reported by the returned flag. -/
def extModulesLoopGo (sep : String) (orig_path : String) :
    (String → String) → List (Option (List String) × Bool) →
      (String → String) × Bool
  | env, [] => (env, true)
  | env, (parent_paths, copy_ok) :: rest =>
    let env1 :=
      match parent_paths with
      | some ps => envSet env "PATH" (joinWithSep sep (orig_path :: ps))
      | none => env
    let env2 := envSet env1 "PATH" orig_path
    if copy_ok then extModulesLoopGo sep orig_path env2 rest
    else (env2, false)

/-- The extension-module copy loop of Freezer._write_modules: reads
PATH once, then runs the per-module iterations. -/
def extModulesPathLoop (sep : String) (env : String → String)
    (items : List (Option (List String) × Bool)) :
    (String → String) × Bool :=
  extModulesLoopGo sep (env "PATH") env items

/-! ## Helper lemmas -/

theorem PurePath.name_mk_single (b : Bool) (s : String) :
    PurePath.name ⟨b, [s]⟩ = s := rfl

theorem dropPartsOf?_self_append (xs ys : List String) :
    dropPartsOf? xs (xs ++ ys) = some ys := by
  induction xs with
  | nil => rfl
  | cons a as ih => simp [dropPartsOf?, ih]

theorem dropPartsOf?_eq_some {xs zs r : List String}
    (h : dropPartsOf? xs zs = some r) : zs = xs ++ r := by
  induction xs generalizing zs with
  | nil =>
    simp only [dropPartsOf?, Option.some.injEq] at h
    simpa using h
  | cons a as ih =>
    cases zs with
    | nil => simp [dropPartsOf?] at h
    | cons b bs =>
      by_cases hab : a = b
      · subst hab
        simp only [dropPartsOf?, if_pos rfl] at h
        simpa using ih h
      · simp [dropPartsOf?, hab] at h

theorem isRelativeTo_join_right (p : PurePath) (q : PurePath)
    (hq : q.absol = false) : (p.join q).isRelativeTo p = true := by
  simp only [PurePath.join, hq, if_neg Bool.false_ne_true,
    PurePath.isRelativeTo, PurePath.relativeTo?]
  simp [dropPartsOf?_self_append]

theorem isRelativeTo_join_of_isRelativeTo {p r : PurePath} (q : PurePath)
    (hq : q.absol = false) (h : p.isRelativeTo r = true) :
    (p.join q).isRelativeTo r = true := by
  simp only [PurePath.isRelativeTo, PurePath.relativeTo?] at h ⊢
  by_cases habs : p.absol = r.absol
  · rcases hdp : dropPartsOf? r.parts p.parts with _ | rest
    · simp [habs, hdp] at h
    · have := dropPartsOf?_eq_some hdp
      simp only [PurePath.join, hq, if_neg Bool.false_ne_true]
      simp only [habs, if_pos rfl, this, List.append_assoc,
        dropPartsOf?_self_append]
      simp
  · simp [habs] at h

theorem isRelativeTo_trans {p q r : PurePath}
    (h1 : p.isRelativeTo q = true) (h2 : q.isRelativeTo r = true) :
    p.isRelativeTo r = true := by
  simp only [PurePath.isRelativeTo, PurePath.relativeTo?] at h1 h2 ⊢
  by_cases h1a : p.absol = q.absol
  · by_cases h2a : q.absol = r.absol
    · rcases hd1 : dropPartsOf? q.parts p.parts with _ | r1
      · simp [h1a, hd1] at h1
      · rcases hd2 : dropPartsOf? r.parts q.parts with _ | r2
        · simp [h2a, hd2] at h2
        · have e1 := dropPartsOf?_eq_some hd1
          have e2 := dropPartsOf?_eq_some hd2
          have : p.absol = r.absol := h1a.trans h2a
          simp only [this, if_pos rfl, e1, e2, List.append_assoc,
            dropPartsOf?_self_append]
          simp
    · simp [h2a] at h2
  · simp [h1a] at h1

theorem mem_insertOnce_self {α : Type} [DecidableEq α] (a : α)
    (l : List α) : a ∈ insertOnce a l := by
  unfold insertOnce
  by_cases h : a ∈ l <;> simp [h]

theorem insertOnce_of_mem {α : Type} [DecidableEq α] {a : α}
    {l : List α} (h : a ∈ l) : insertOnce a l = l := by
  simp [insertOnce, h]

theorem mem_insertOnce_of_mem {α : Type} [DecidableEq α] {b : α} (a : α)
    {l : List α} (h : b ∈ l) : b ∈ insertOnce a l := by
  unfold insertOnce
  by_cases ha : a ∈ l <;> simp [ha, h]

/-! ## Claim C1 -/

/-- Claim C1: Freezer._should_copy_file evaluates the layered rule sets
in the fixed order user include-by-name, user exclude-by-name, user
include-by-directory, user exclude-by-directory, then the four
platform-default layers, first match winning, and returns include when
no rule matches; consequently a path matched by a user include-by-name
rule is included no matter what any exclude rule (platform defaults
included) says. -/
theorem shouldCopyFile_layered_order :
    (∀ (cfg : BinPolicy) (p : PurePath),
      Freezer.shouldCopyFile cfg p = shouldCopySpecOrdered cfg p) ∧
    (∀ (cfg : BinPolicy) (p : PurePath),
      binIncludesHit cfg p ⟨false, [os_path_normcase p.name]⟩
        ⟨false, [removeVersionNumbers (os_path_normcase p.name)]⟩ = true →
      Freezer.shouldCopyFile cfg p = true) := by
  constructor
  · intro cfg p
    rfl
  · intro cfg p h
    simp only [Freezer.shouldCopyFile, PurePath.name_mk_single]
    simp [h]

/-- Witness for C1: a concrete path matched by both a user
include-by-name rule and a platform-default exclude-by-name rule is
included. -/
theorem shouldCopyFile_layered_order_witness :
    Freezer.shouldCopyFile
      ⟨[⟨false, ["libbar.so"]⟩], [], [], [], [],
        [⟨false, ["libbar.so"]⟩], [], []⟩
      ⟨true, ["opt", "libbar.so.2"]⟩ = true :=
  shouldCopyFile_layered_order.2
    ⟨[⟨false, ["libbar.so"]⟩], [], [], [], [],
      [⟨false, ["libbar.so"]⟩], [], []⟩
    ⟨true, ["opt", "libbar.so.2"]⟩ (by decide)

/-! ## Claim C6 -/

/-- Counterexample for C6: the platform-default name lists are not
matched against all three forms.  For the path /x/libfoo.so.1 with the
rule libfoo.so in both default_bin_includes and default_bin_excludes,
matching every list against all three forms would include the file
(first match at the default include layer, via the version-stripped
name), but _should_copy_file matches default includes against the full
path only, misses, and then excludes the file at the default exclude
layer. -/
theorem should_copy_forms_cx :
    Freezer.shouldCopyFile
      ⟨[], [], [], [], [⟨false, ["libfoo.so"]⟩],
        [⟨false, ["libfoo.so"]⟩], [], []⟩
      ⟨true, ["x", "libfoo.so.1"]⟩ = false ∧
    shouldCopyFileAllForms
      ⟨[], [], [], [], [⟨false, ["libfoo.so"]⟩],
        [⟨false, ["libfoo.so"]⟩], [], []⟩
      ⟨true, ["x", "libfoo.so.1"]⟩ = true := by
  constructor <;> decide

/-- Amended C6: the user-supplied bin_includes and bin_excludes lists
are matched against the full path, the normalized base filename and
the version-stripped filename (so a user rule written for libfoo.so
matches a dependency named libfoo.so.1.2.3), and version stripping
removes exactly the trailing dot-separated all-digit components of the
name; the platform-default include list, however, is matched against
the full path only and the platform-default exclude list against the
version-stripped filename only. -/
theorem version_stripping_matching :
    (∀ (rq rp : List (List Char)),
      (∀ q ∈ rq, pyIsDigit q = true) →
      (∀ l ls, rp = l :: ls → pyIsDigit l = false) →
      popTrailingDigitsRev (rq ++ rp) = (rp, !rq.isEmpty)) ∧
    (removeVersionNumbers "libfoo.so.1.2.3" = "libfoo.so") ∧
    (∀ (cfg : BinPolicy) (p : PurePath) (rule : PurePath),
      rule ∈ cfg.bin_includes →
      PurePath.matchGlob
        ⟨false, [removeVersionNumbers (os_path_normcase p.name)]⟩ rule =
        true →
      Freezer.shouldCopyFile cfg p = true) ∧
    (∀ (cfg : BinPolicy) (p : PurePath) (rule : PurePath),
      rule ∈ cfg.bin_excludes →
      PurePath.matchGlob
        ⟨false, [removeVersionNumbers (os_path_normcase p.name)]⟩ rule =
        true →
      binIncludesHit cfg p ⟨false, [os_path_normcase p.name]⟩
        ⟨false, [removeVersionNumbers (os_path_normcase p.name)]⟩ = false →
      Freezer.shouldCopyFile cfg p = false) ∧
    (∀ (cfg : BinPolicy) (p : PurePath),
      defaultBinIncludesHit cfg p =
        cfg.default_bin_includes.any (fun binfile => p.matchGlob binfile)) ∧
    (∀ (cfg : BinPolicy) (p : PurePath),
      defaultBinExcludesHit cfg
          ⟨false, [removeVersionNumbers (os_path_normcase p.name)]⟩ =
        cfg.default_bin_excludes.any (fun binfile =>
          PurePath.matchGlob
            ⟨false, [removeVersionNumbers (os_path_normcase p.name)]⟩
            binfile)) := by
  refine ⟨?_, by decide, ?_, ?_, fun _ _ => rfl, fun _ _ => rfl⟩
  · intro rq rp hq hp
    induction rq with
    | nil =>
      cases rp with
      | nil => rfl
      | cons l ls =>
        simp [popTrailingDigitsRev, hp l ls rfl]
    | cons q rq2 ih =>
      have hq1 : pyIsDigit q = true := hq q (by simp)
      have ih1 := ih (fun x hx => hq x (by simp [hx]))
      simp [popTrailingDigitsRev, hq1, ih1]
  · intro cfg p rule hmem hmatch
    have hhit : binIncludesHit cfg p ⟨false, [os_path_normcase p.name]⟩
        ⟨false, [removeVersionNumbers (os_path_normcase p.name)]⟩ = true := by
      unfold binIncludesHit
      refine List.any_eq_true.mpr ⟨rule, hmem, ?_⟩
      simp [hmatch]
    simp only [Freezer.shouldCopyFile, PurePath.name_mk_single]
    simp [hhit]
  · intro cfg p rule hmem hmatch hinc
    have hhit : binExcludesHit cfg p ⟨false, [os_path_normcase p.name]⟩
        ⟨false, [removeVersionNumbers (os_path_normcase p.name)]⟩ = true := by
      unfold binExcludesHit
      refine List.any_eq_true.mpr ⟨rule, hmem, ?_⟩
      simp [hmatch]
    simp only [Freezer.shouldCopyFile, PurePath.name_mk_single]
    simp [hhit, hinc]

/-- Witness for the amended C6: a user include rule written for
libfoo.so includes the dependency /opt/libfoo.so.1.2.3 through the
version-stripped filename form. -/
theorem version_stripping_matching_witness :
    Freezer.shouldCopyFile
      ⟨[⟨false, ["libfoo.so"]⟩], [], [], [], [], [], [], []⟩
      ⟨true, ["opt", "libfoo.so.1.2.3"]⟩ = true :=
  version_stripping_matching.2.2.1
    ⟨[⟨false, ["libfoo.so"]⟩], [], [], [], [], [], [], []⟩
    ⟨true, ["opt", "libfoo.so.1.2.3"]⟩ ⟨false, ["libfoo.so"]⟩
    (by decide) (by decide)

/-! ## Claim C5 -/

theorem drop_len_add_append (l r : List Nat) (k : Nat) :
    (l ++ r).drop (l.length + k) = r.drop k := by
  induction l with
  | nil => simp
  | cons a as ih =>
    simp only [List.cons_append, List.length_cons, Nat.succ_add,
      List.drop_succ_cons]
    exact ih

theorem readLe32_le32 (n : Nat) : readLe32 (le32 n) = n % 4294967296 := by
  simp only [readLe32, le32]
  omega

theorem header_field_slices (magic : List Nat) (a b : Nat)
    (tail : List Nat) :
    ((magic ++ (le32 0 ++ le32 a ++ le32 b ++ tail)).drop
        magic.length).take 4 = le32 0 ∧
    ((magic ++ (le32 0 ++ le32 a ++ le32 b ++ tail)).drop
        (magic.length + 4)).take 4 = le32 a ∧
    ((magic ++ (le32 0 ++ le32 a ++ le32 b ++ tail)).drop
        (magic.length + 8)).take 4 = le32 b ∧
    (magic ++ (le32 0 ++ le32 a ++ le32 b ++ tail)).drop
        (magic.length + 12) = tail := by
  have h0 := drop_len_add_append magic (le32 0 ++ le32 a ++ le32 b ++ tail) 0
  have h4 := drop_len_add_append magic (le32 0 ++ le32 a ++ le32 b ++ tail) 4
  have h8 := drop_len_add_append magic (le32 0 ++ le32 a ++ le32 b ++ tail) 8
  have h12 :=
    drop_len_add_append magic (le32 0 ++ le32 a ++ le32 b ++ tail) 12
  refine ⟨?_, ?_, ?_, ?_⟩
  · rw [show magic.length = magic.length + 0 from rfl, h0]
    simp [le32]
  · rw [h4]
    simp [le32]
  · rw [h8]
    simp [le32]
  · rw [h12]
    simp [le32]

/-- Claim C5: the serialized bytes of a code unit with a compiled
payload are the interpreter magic number, a 12-byte little-endian
field holding flags zero, the modification time and the source size,
then the marshalled payload; mtime and size come from the source file
stat masked to 32 bits when the file exists, otherwise mtime is the
current time masked to 32 bits and size is zero. -/
theorem bytecode_header_format (magic : List Nat)
    (file_stat : Option (Nat × Nat)) (now : Nat) (marshalled : List Nat) :
    (writeModuleData magic file_stat now marshalled).length =
      magic.length + 12 + marshalled.length ∧
    (writeModuleData magic file_stat now marshalled).take magic.length =
      magic ∧
    readLe32 (((writeModuleData magic file_stat now marshalled).drop
      magic.length).take 4) = 0 ∧
    readLe32 (((writeModuleData magic file_stat now marshalled).drop
      (magic.length + 4)).take 4) =
      (match file_stat with
       | some st => st.1 % 4294967296
       | none => now % 4294967296) ∧
    readLe32 (((writeModuleData magic file_stat now marshalled).drop
      (magic.length + 8)).take 4) =
      (match file_stat with
       | some st => st.2 % 4294967296
       | none => 0) ∧
    (writeModuleData magic file_stat now marshalled).drop
      (magic.length + 12) = marshalled := by
  have hpack : packInt32 0 = le32 0 := by decide
  cases file_stat with
  | none =>
    have hdata : writeModuleData magic none now marshalled =
        magic ++ (le32 0 ++ le32 (now % 4294967296) ++ le32 0 ++
          marshalled) := by
      simp [writeModuleData, writeModuleHeader, hpack, List.append_assoc]
    obtain ⟨s0, s4, s8, s12⟩ :=
      header_field_slices magic (now % 4294967296) 0 marshalled
    rw [hdata]
    refine ⟨by simp [le32]; omega, List.take_left magic _, ?_, ?_, ?_, s12⟩
    · rw [s0, readLe32_le32]
    · rw [s4, readLe32_le32]
      show now % 4294967296 % 4294967296 = now % 4294967296
      omega
    · rw [s8, readLe32_le32]
  | some st =>
    have hdata : writeModuleData magic (some st) now marshalled =
        magic ++ (le32 0 ++ le32 (st.1 % 4294967296) ++
          le32 (st.2 % 4294967296) ++ marshalled) := by
      simp [writeModuleData, writeModuleHeader, hpack, List.append_assoc]
    obtain ⟨s0, s4, s8, s12⟩ :=
      header_field_slices magic (st.1 % 4294967296) (st.2 % 4294967296)
        marshalled
    rw [hdata]
    refine ⟨by simp [le32]; omega, List.take_left magic _, ?_, ?_, ?_, s12⟩
    · rw [s0, readLe32_le32]
    · rw [s4, readLe32_le32]
      show st.1 % 4294967296 % 4294967296 = st.1 % 4294967296
      omega
    · rw [s8, readLe32_le32]
      show st.2 % 4294967296 % 4294967296 = st.2 % 4294967296
      omega

/-! ## Claim C9 -/

theorem getLastD_append_two (xs : List String) (a b d : String) :
    (xs ++ [a, b]).getLastD d = b := by
  have h : xs ++ [a, b] = (xs ++ [a]) ++ [b] := by simp
  rw [h, List.getLastD_concat]

theorem join_lib_zip_name (td : PurePath) :
    (td.join ⟨false, ["lib", "library.zip"]⟩).name = "library.zip" := by
  simp [PurePath.join, PurePath.name, getLastD_append_two]

theorem writeModulesPostPass_some (td zf : PurePath) :
    writeModulesPostPass td (some zf) =
      (if zf.name ≠ "library.zip" then
        [PostPassAction.renameArchive
          (td.join ⟨false, ["lib", "library.zip"]⟩) zf]
      else []) ++
      [PostPassAction.writeMarker
        (td.join ⟨false, ["lib", "library.dat"]⟩) zf.name] := by
  have e : writeModulesPostPass td (some zf) =
      (if zf.name ≠ (td.join ⟨false, ["lib", "library.zip"]⟩).name then
        [PostPassAction.renameArchive
          (td.join ⟨false, ["lib", "library.zip"]⟩) zf]
      else []) ++
      [PostPassAction.writeMarker
        (td.join ⟨false, ["lib", "library.dat"]⟩) zf.name] := rfl
  rw [e, join_lib_zip_name td]

/-- Claim C9: when no compressed-archive output was requested, the
post-pass of _write_modules extracts the just-built archive into the
lib directory and deletes it (writing no marker); otherwise the
archive is kept, renamed exactly when the requested name differs from
the default library.zip, never deleted, and the marker lib/library.dat
is written with the chosen archive filename as its entire content. -/
theorem write_modules_post_pass_props :
    (∀ (td : PurePath),
      writeModulesPostPass td none =
        [PostPassAction.extractAll (td.join ⟨false, ["lib", "library.zip"]⟩)
          (td.join ⟨false, ["lib"]⟩),
         PostPassAction.deleteArchive
          (td.join ⟨false, ["lib", "library.zip"]⟩)]) ∧
    (∀ (td : PurePath) (p : PurePath) (s : String),
      PostPassAction.writeMarker p s ∉ writeModulesPostPass td none) ∧
    (∀ (td zf : PurePath),
      PostPassAction.writeMarker (td.join ⟨false, ["lib", "library.dat"]⟩)
        zf.name ∈ writeModulesPostPass td (some zf)) ∧
    (∀ (td zf : PurePath) (p : PurePath),
      PostPassAction.deleteArchive p ∉ writeModulesPostPass td (some zf)) ∧
    (∀ (td zf : PurePath), zf.name ≠ "library.zip" →
      PostPassAction.renameArchive (td.join ⟨false, ["lib", "library.zip"]⟩)
        zf ∈ writeModulesPostPass td (some zf)) ∧
    (∀ (td zf : PurePath), zf.name = "library.zip" →
      ∀ (a b : PurePath),
        PostPassAction.renameArchive a b ∉ writeModulesPostPass td (some zf))
    := by
  have hparent : ∀ (td : PurePath),
      (td.join ⟨false, ["lib", "library.zip"]⟩).parent =
        td.join ⟨false, ["lib"]⟩ := by
    intro td
    have h2 : td.parts ++ ["lib", "library.zip"] =
        (td.parts ++ ["lib"]) ++ ["library.zip"] := by simp
    have e : (td.join ⟨false, ["lib", "library.zip"]⟩).parent =
        ⟨td.absol, (td.parts ++ ["lib", "library.zip"]).dropLast⟩ := rfl
    rw [e, h2, List.dropLast_concat]
    rfl
  have hnone : ∀ (td : PurePath), writeModulesPostPass td none =
      [PostPassAction.extractAll (td.join ⟨false, ["lib", "library.zip"]⟩)
        ((td.join ⟨false, ["lib", "library.zip"]⟩).parent),
       PostPassAction.deleteArchive
        (td.join ⟨false, ["lib", "library.zip"]⟩)] := fun _ => rfl
  refine ⟨?_, ?_, ?_, ?_, ?_, ?_⟩
  · intro td
    rw [hnone, hparent]
  · intro td p s
    rw [hnone]
    simp
  · intro td zf
    rw [writeModulesPostPass_some]
    by_cases h : zf.name = "library.zip" <;> simp [h]
  · intro td zf p
    rw [writeModulesPostPass_some]
    by_cases h : zf.name = "library.zip" <;> simp [h]
  · intro td zf h
    rw [writeModulesPostPass_some]
    simp [h]
  · intro td zf h a b
    rw [writeModulesPostPass_some]
    simp [h]

/-- Witness for C9: with the default archive name the post-pass keeps
the archive unrenamed and still writes the marker; with a custom name
the archive is renamed. -/
theorem write_modules_post_pass_props_witness :
    (∀ (a b : PurePath),
      PostPassAction.renameArchive a b ∉
        writeModulesPostPass ⟨true, ["build"]⟩
          (some ⟨true, ["build", "lib", "library.zip"]⟩)) ∧
    PostPassAction.renameArchive
        (PurePath.join ⟨true, ["dist"]⟩ ⟨false, ["lib", "library.zip"]⟩)
        ⟨true, ["dist", "lib", "custom.zip"]⟩ ∈
      writeModulesPostPass ⟨true, ["dist"]⟩
        (some ⟨true, ["dist", "lib", "custom.zip"]⟩) :=
  ⟨write_modules_post_pass_props.2.2.2.2.2 ⟨true, ["build"]⟩
      ⟨true, ["build", "lib", "library.zip"]⟩ (by decide),
    write_modules_post_pass_props.2.2.2.2.1 ⟨true, ["dist"]⟩
      ⟨true, ["dist", "lib", "custom.zip"]⟩ (by decide)⟩

/-! ## Claim C10 -/

theorem extModulesLoopGo_ne_nil (sep orig_path : String) :
    ∀ (items : List (Option (List String) × Bool)),
      items ≠ [] → ∀ (env : String → String) (k : String),
      (extModulesLoopGo sep orig_path env items).1 k =
        envSet env "PATH" orig_path k := by
  intro items
  induction items with
  | nil => intro h; exact absurd rfl h
  | cons item rest ih =>
    intro hne env k
    clear hne
    obtain ⟨parent_paths, copy_ok⟩ := item
    cases parent_paths with
    | none =>
      cases copy_ok with
      | false =>
        have hgo : extModulesLoopGo sep orig_path env
            ((none, false) :: rest) =
            (envSet env "PATH" orig_path, false) := by
          simp [extModulesLoopGo]
        rw [hgo]
      | true =>
        have hgo : extModulesLoopGo sep orig_path env
            ((none, true) :: rest) =
            extModulesLoopGo sep orig_path
              (envSet env "PATH" orig_path) rest := by
          simp [extModulesLoopGo]
        rw [hgo]
        rcases hrest : rest with _ | ⟨r, rs⟩
        · simp [extModulesLoopGo]
        · rw [← hrest, ih (by simp [hrest]) _ k]
          by_cases hq : k = "PATH" <;> simp [envSet, hq]
    | some ps =>
      have key : ∀ (q : String),
          envSet (envSet env "PATH" (joinWithSep sep (orig_path :: ps)))
            "PATH" orig_path q = envSet env "PATH" orig_path q := by
        intro q
        by_cases hq : q = "PATH" <;> simp [envSet, hq]
      cases copy_ok with
      | false =>
        have hgo : extModulesLoopGo sep orig_path env
            ((some ps, false) :: rest) =
            (envSet (envSet env "PATH" (joinWithSep sep (orig_path :: ps)))
              "PATH" orig_path, false) := by
          simp [extModulesLoopGo]
        rw [hgo]
        exact key k
      | true =>
        have hgo : extModulesLoopGo sep orig_path env
            ((some ps, true) :: rest) =
            extModulesLoopGo sep orig_path
              (envSet (envSet env "PATH" (joinWithSep sep (orig_path :: ps)))
                "PATH" orig_path) rest := by
          simp [extModulesLoopGo]
        rw [hgo]
        rcases hrest : rest with _ | ⟨r, rs⟩
        · simpa [extModulesLoopGo] using key k
        · rw [← hrest, ih (by simp [hrest]) _ k]
          by_cases hq : k = "PATH" <;> simp [envSet, hq]

/-- Claim C10: the extension-module copy loop leaves the process
environment unchanged: after the loop, whether it ran to completion or
was aborted by a failing copy, every environment variable (PATH
included) has the value it had before the loop; PATH is restored by
the finally block of each iteration and no other variable is ever
assigned. -/
theorem ext_modules_loop_env_restored (sep : String)
    (env : String → String)
    (items : List (Option (List String) × Bool)) (k : String) :
    (extModulesPathLoop sep env items).1 k = env k := by
  unfold extModulesPathLoop
  rcases hitems : items with _ | ⟨i, rest⟩
  · rfl
  · rw [← hitems,
      extModulesLoopGo_ne_nil sep (env "PATH") items (by simp [hitems])]
    by_cases hq : k = "PATH" <;> simp [envSet, hq]

/-! ## Claim C7 -/

/-- Claim C7: configuration errors are fatal and raised during Freezer
construction, before any copying: a package in both
zip_include_packages and zip_exclude_packages (a star in both
included) raises OptionError, an output directory on the module search
path raises OptionError, an unremovable pre-existing output directory
raises OptionError, and a successfully constructed Freezer starts with
empty copied-file and deferred-symlink sets. -/
theorem freezer_init_config_errors :
    (∀ (c : InitConfig) (zi ze : List String) (p : String),
      c.zip_include_packages = some zi → c.zip_exclude_packages = some ze →
      p ∈ zi → p ∈ ze → ∃ msg, freezerInit c = .error msg) ∧
    (∀ (c : InitConfig), c.target_path ∈ c.search_path →
      ∃ msg, freezerInit c = .error msg) ∧
    (∀ (c : InitConfig), c.target_is_dir = true → c.rmtree_ok = false →
      ∃ msg, freezerInit c = .error msg) ∧
    (∀ (c : InitConfig) (st : FreezerState), freezerInit c = .ok st →
      st.files_copied = [] ∧ st.symlinks = []) := by
  have hinit : ∀ (c : InitConfig),
      freezerInit c =
        match targetDirSetter c.search_path c.target_path c.target_is_dir
            c.rmtree_ok with
        | .error msg => .error msg
        | .ok td =>
          match populateZipOptions c.zip_include_packages
              c.zip_exclude_packages with
          | .error msg => .error msg
          | .ok z =>
            .ok { target_dir := td, zip_include_packages := z.1,
                  zip_exclude_packages := z.2.1,
                  zip_include_all_packages := z.2.2,
                  files_copied := [], symlinks := [] } := fun _ => rfl
  refine ⟨?_, ?_, ?_, ?_⟩
  · intro c zi ze p hzi hze hpzi hpze
    rcases htd : targetDirSetter c.search_path c.target_path
        c.target_is_dir c.rmtree_ok with msg | td
    · exact ⟨msg, by rw [hinit, htd]⟩
    · have hred : populateZipOptions (some zi) (some ze) =
          (if ("*" ∈ ze) ∧ ("*" ∈ zi) then
            Except.error ("all packages cannot be included and excluded " ++
              "from the zip file at the same time")
          else if ((zi.map partitionDotHead).dedup.filter fun nm =>
              nm ∈ (ze.map partitionDotHead).dedup) ≠ [] then
            Except.error
              "packages cannot be both included and excluded from zip file"
          else Except.ok ((zi.map partitionDotHead).dedup,
            (ze.map partitionDotHead).dedup, decide ("*" ∈ zi))) := rfl
      have hpop : ∃ m, populateZipOptions c.zip_include_packages
          c.zip_exclude_packages = .error m := by
        rw [hzi, hze, hred]
        by_cases hstar : ("*" ∈ ze) ∧ ("*" ∈ zi)
        · exact ⟨_, by rw [if_pos hstar]⟩
        · have hmem : partitionDotHead p ∈
              ((zi.map partitionDotHead).dedup.filter fun nm =>
                nm ∈ (ze.map partitionDotHead).dedup) := by
            refine List.mem_filter.mpr ⟨?_, ?_⟩
            · exact List.mem_dedup.mpr (List.mem_map.mpr ⟨p, hpzi, rfl⟩)
            · exact decide_eq_true
                (List.mem_dedup.mpr (List.mem_map.mpr ⟨p, hpze, rfl⟩))
          have hne : ((zi.map partitionDotHead).dedup.filter fun nm =>
              nm ∈ (ze.map partitionDotHead).dedup) ≠ [] := by
            intro hnil
            rw [hnil] at hmem
            exact absurd hmem (List.not_mem_nil _)
          exact ⟨_, by rw [if_neg hstar, if_pos hne]⟩
      obtain ⟨m, hm⟩ := hpop
      exact ⟨m, by rw [hinit, htd, hm]⟩
  · intro c hmem
    have htd : targetDirSetter c.search_path c.target_path
        c.target_is_dir c.rmtree_ok =
        .error "the build_exe directory cannot be used as search path" := by
      simp [targetDirSetter, hmem]
    exact ⟨_, by rw [hinit, htd]⟩
  · intro c hdir hrm
    rcases htd : targetDirSetter c.search_path c.target_path
        c.target_is_dir c.rmtree_ok with msg | td
    · exact ⟨msg, by rw [hinit, htd]⟩
    · exfalso
      unfold targetDirSetter at htd
      by_cases hmem : c.target_path ∈ c.search_path
      · simp [hmem] at htd
      · rw [hdir, hrm] at htd
        simp [hmem] at htd
  · intro c st hok
    rw [hinit] at hok
    rcases htd : targetDirSetter c.search_path c.target_path
        c.target_is_dir c.rmtree_ok with msg | td
    · rw [htd] at hok
      exact absurd hok (by simp)
    · rw [htd] at hok
      rcases hpop : populateZipOptions c.zip_include_packages
          c.zip_exclude_packages with msg | z
      · rw [hpop] at hok
        exact absurd hok (by simp)
      · rw [hpop] at hok
        rw [← Except.ok.inj hok]
        exact ⟨rfl, rfl⟩

/-- Witness for C7: a configuration that lists the package pkg in both
zip options fails construction; a clean configuration constructs a
Freezer with nothing copied. -/
theorem freezer_init_config_errors_witness :
    (∃ msg, freezerInit
      { search_path := [], target_path := ⟨true, ["build"]⟩,
        target_is_dir := false, rmtree_ok := true,
        zip_include_packages := some ["pkg"],
        zip_exclude_packages := some ["pkg"] } = .error msg) ∧
    (∃ msg, freezerInit
      { search_path := [⟨true, ["build"]⟩], target_path := ⟨true, ["build"]⟩,
        target_is_dir := false, rmtree_ok := true,
        zip_include_packages := none,
        zip_exclude_packages := none } = .error msg) ∧
    (∃ msg, freezerInit
      { search_path := [], target_path := ⟨true, ["build"]⟩,
        target_is_dir := true, rmtree_ok := false,
        zip_include_packages := none,
        zip_exclude_packages := none } = .error msg) :=
  ⟨freezer_init_config_errors.1 _ ["pkg"] ["pkg"] "pkg" rfl rfl
      (by decide) (by decide),
    freezer_init_config_errors.2.1 _ (by decide),
    freezer_init_config_errors.2.2.1 _ rfl rfl⟩

/-! ## Claim C2 -/

theorem relativeTo?_absol {p q r : PurePath}
    (h : p.relativeTo? q = some r) : r.absol = false := by
  unfold PurePath.relativeTo? at h
  by_cases habs : p.absol = q.absol
  · rcases hdp : dropPartsOf? q.parts p.parts with _ | rest
    · rw [if_pos habs, hdp] at h
      exact absurd h (by simp)
    · rw [if_pos habs, hdp] at h
      rw [← Option.some.inj h]
  · rw [if_neg habs] at h
    exact absurd h (by simp)

theorem clamp_isRelativeTo (library_dir dt : PurePath) (n : String) :
    (if dt.isRelativeTo library_dir then dt
     else library_dir.join ⟨false, [n]⟩).isRelativeTo library_dir = true := by
  by_cases h : dt.isRelativeTo library_dir = true
  · rw [if_pos]
    · exact h
    · exact of_decide_eq_true (by rw [decide_eq_true_eq]; exact h)
  · rw [if_neg]
    · exact isRelativeTo_join_right library_dir ⟨false, [n]⟩ rfl
    · intro hc
      exact h hc

theorem winComputeDependentTarget_none (target_dir_root : PurePath)
    (lib_files : PurePath → Option PurePath)
    (platform_bin_path : List PurePath)
    (source_dir target_dir dependent_source : PurePath)
    (h : lib_files dependent_source = none) :
    winComputeDependentTarget target_dir_root lib_files platform_bin_path
      source_dir target_dir dependent_source =
    (if (winDependentTargetRaw (target_dir_root.join ⟨false, ["lib"]⟩)
          platform_bin_path source_dir target_dir
          dependent_source).isRelativeTo
        (target_dir_root.join ⟨false, ["lib"]⟩) then
      winDependentTargetRaw (target_dir_root.join ⟨false, ["lib"]⟩)
        platform_bin_path source_dir target_dir dependent_source
    else (target_dir_root.join ⟨false, ["lib"]⟩).join
      ⟨false, [dependent_source.name]⟩) := by
  unfold winComputeDependentTarget
  rw [h]

theorem winComputeDependentTarget_some (target_dir_root : PurePath)
    (lib_files : PurePath → Option PurePath)
    (platform_bin_path : List PurePath)
    (source_dir target_dir dependent_source lib_file : PurePath)
    (h : lib_files dependent_source = some lib_file) :
    winComputeDependentTarget target_dir_root lib_files platform_bin_path
      source_dir target_dir dependent_source =
      target_dir_root.join lib_file := by
  unfold winComputeDependentTarget
  rw [h]

theorem linuxComputeDependentTarget_eq (root : PurePath)
    (lib_files : PurePath → Option PurePath) (fc : List PurePath)
    (sd td dep : PurePath) :
    linuxComputeDependentTarget root lib_files fc sd td dep =
      (match lib_files dep with
       | some lib_file => root.join lib_file
       | none =>
         match dep.relativeTo? sd with
         | some relative => td.join relative
         | none =>
           match fc.find? (fun f => decide (f.name = dep.name)) with
           | some file =>
             if file.isRelativeTo td then file
             else td.join ⟨false, [dep.name]⟩
           | none => td.join ⟨false, [dep.name]⟩) := rfl

theorem linuxComputeDependentTarget_some (root : PurePath)
    (lib_files : PurePath → Option PurePath) (fc : List PurePath)
    (sd td dep lf : PurePath) (h : lib_files dep = some lf) :
    linuxComputeDependentTarget root lib_files fc sd td dep =
      root.join lf := by
  rw [linuxComputeDependentTarget_eq, h]

theorem linuxComputeDependentTarget_rel (root : PurePath)
    (lib_files : PurePath → Option PurePath) (fc : List PurePath)
    (sd td dep rel : PurePath) (h1 : lib_files dep = none)
    (h2 : dep.relativeTo? sd = some rel) :
    linuxComputeDependentTarget root lib_files fc sd td dep =
      td.join rel := by
  rw [linuxComputeDependentTarget_eq, h1, h2]

theorem linuxComputeDependentTarget_found (root : PurePath)
    (lib_files : PurePath → Option PurePath) (fc : List PurePath)
    (sd td dep file : PurePath) (h1 : lib_files dep = none)
    (h2 : dep.relativeTo? sd = none)
    (h3 : fc.find? (fun f => decide (f.name = dep.name)) = some file) :
    linuxComputeDependentTarget root lib_files fc sd td dep =
      (if file.isRelativeTo td then file
       else td.join ⟨false, [dep.name]⟩) := by
  rw [linuxComputeDependentTarget_eq, h1, h2, h3]

theorem linuxComputeDependentTarget_notfound (root : PurePath)
    (lib_files : PurePath → Option PurePath) (fc : List PurePath)
    (sd td dep : PurePath) (h1 : lib_files dep = none)
    (h2 : dep.relativeTo? sd = none)
    (h3 : fc.find? (fun f => decide (f.name = dep.name)) = none) :
    linuxComputeDependentTarget root lib_files fc sd td dep =
      td.join ⟨false, [dep.name]⟩ := by
  rw [linuxComputeDependentTarget_eq, h1, h2, h3]

/-- Counterexample for C2: on the Linux platform variant no clamping
to the lib subtree happens.  With bundle root /build, a referencing
binary copied to /build/app (so target_dir is /build), source
directory /src and dependent /src/sub/libx.so, the computed dependent
target is /build/sub/libx.so, which lies outside /build/lib and is not
replaced by library_dir / dependent_name. -/
theorem linux_dependent_target_no_clamp_cx :
    linuxComputeDependentTarget ⟨true, ["build"]⟩ (fun _ => none) []
      ⟨true, ["src"]⟩ ⟨true, ["build"]⟩ ⟨true, ["src", "sub", "libx.so"]⟩ =
      ⟨true, ["build", "sub", "libx.so"]⟩ ∧
    PurePath.isRelativeTo ⟨true, ["build", "sub", "libx.so"]⟩
      (PurePath.join ⟨true, ["build"]⟩ ⟨false, ["lib"]⟩) = false ∧
    (⟨true, ["build", "sub", "libx.so"]⟩ : PurePath) ≠
      (PurePath.join ⟨true, ["build"]⟩ ⟨false, ["lib"]⟩).join
        ⟨false, ["libx.so"]⟩ := by
  refine ⟨by decide, by decide, by decide⟩

/-- Amended C2: the replacement of an escaping dependent target by
library_dir / dependent_name happens only in the Windows variant of
the post-copy hook, whose non-override branch always lands inside the
lib subtree; the Darwin variant places every dependent directly in the
lib directory; the Linux variant performs no clamp, but on every
variant the computed dependent target is a syntactic descendant of the
bundle root whenever the override table holds relative paths, the
referencing target lies under the root and (for Linux) every
previously copied file lies under the root. -/
theorem dependent_target_bundle_containment :
    (∀ (root : PurePath) (lib_files : PurePath → Option PurePath)
       (pbp : List PurePath) (sd td dep : PurePath),
      lib_files dep = none →
      (winComputeDependentTarget root lib_files pbp sd td dep).isRelativeTo
        (root.join ⟨false, ["lib"]⟩) = true) ∧
    (∀ (root : PurePath) (lib_files : PurePath → Option PurePath)
       (pbp : List PurePath) (sd td dep : PurePath),
      (∀ q lf, lib_files q = some lf → lf.absol = false) →
      (winComputeDependentTarget root lib_files pbp sd td dep).isRelativeTo
        root = true) ∧
    (∀ (root : PurePath) (lib_files : PurePath → Option PurePath)
       (fc : List PurePath) (sd td dep : PurePath),
      (∀ q lf, lib_files q = some lf → lf.absol = false) →
      td.isRelativeTo root = true →
      (∀ f, f ∈ fc → f.isRelativeTo root = true) →
      (linuxComputeDependentTarget root lib_files fc sd td dep).isRelativeTo
        root = true) ∧
    (∀ (root dep : PurePath),
      (darwinComputeDependentTarget root dep).isRelativeTo
        (root.join ⟨false, ["lib"]⟩) = true) := by
  refine ⟨?_, ?_, ?_, ?_⟩
  · intro root lib_files pbp sd td dep h
    rw [winComputeDependentTarget_none root lib_files pbp sd td dep h]
    exact clamp_isRelativeTo _ _ _
  · intro root lib_files pbp sd td dep hrel
    rcases hlf : lib_files dep with _ | lf
    · have hlib : (winComputeDependentTarget root lib_files pbp sd td
          dep).isRelativeTo (root.join ⟨false, ["lib"]⟩) = true := by
        rw [winComputeDependentTarget_none root lib_files pbp sd td dep hlf]
        exact clamp_isRelativeTo
          (root.join ⟨false, ["lib"]⟩)
          (winDependentTargetRaw (root.join ⟨false, ["lib"]⟩) pbp sd td dep)
          dep.name
      exact isRelativeTo_trans hlib
        (isRelativeTo_join_right root ⟨false, ["lib"]⟩ rfl)
    · rw [winComputeDependentTarget_some root lib_files pbp sd td dep lf hlf]
      have : lf = ⟨false, lf.parts⟩ := by
        have := hrel dep lf hlf
        cases lf
        simp_all
      rw [this]
      exact isRelativeTo_join_right root ⟨false, lf.parts⟩ rfl
  · intro root lib_files fc sd td dep hrel htd hfc
    rcases hlf : lib_files dep with _ | lf
    · rcases hdep : dep.relativeTo? sd with _ | rel
      · rcases hfind : fc.find? (fun f => decide (f.name = dep.name))
            with _ | file
        · rw [linuxComputeDependentTarget_notfound root lib_files fc sd td
            dep hlf hdep hfind]
          exact isRelativeTo_join_of_isRelativeTo ⟨false, [dep.name]⟩ rfl htd
        · rw [linuxComputeDependentTarget_found root lib_files fc sd td
            dep file hlf hdep hfind]
          by_cases hfile : file.isRelativeTo td = true
          · rw [if_pos hfile]
            exact hfc file (List.mem_of_find?_eq_some hfind)
          · rw [if_neg (by simpa using hfile)]
            exact isRelativeTo_join_of_isRelativeTo ⟨false, [dep.name]⟩ rfl
              htd
      · rw [linuxComputeDependentTarget_rel root lib_files fc sd td dep rel
          hlf hdep]
        have hrelabs := relativeTo?_absol hdep
        have hre : rel = ⟨false, rel.parts⟩ := by
          cases rel
          simp_all
        rw [hre]
        exact isRelativeTo_join_of_isRelativeTo ⟨false, rel.parts⟩ rfl htd
    · rw [linuxComputeDependentTarget_some root lib_files fc sd td dep lf
        hlf]
      have hl : lf = ⟨false, lf.parts⟩ := by
        have := hrel dep lf hlf
        cases lf
        simp_all
      rw [hl]
      exact isRelativeTo_join_right root ⟨false, lf.parts⟩ rfl
  · intro root dep
    exact isRelativeTo_join_right (root.join ⟨false, ["lib"]⟩)
      ⟨false, [dep.name]⟩ rfl

/-- Witness for the amended C2: a concrete Linux dependent placed
beside its referencing binary stays under the bundle root. -/
theorem dependent_target_bundle_containment_witness :
    (linuxComputeDependentTarget ⟨true, ["build"]⟩ (fun _ => none) []
      ⟨true, ["src"]⟩ ⟨true, ["build"]⟩
      ⟨true, ["src", "sub", "libx.so"]⟩).isRelativeTo
      ⟨true, ["build"]⟩ = true :=
  dependent_target_bundle_containment.2.2.1 ⟨true, ["build"]⟩
    (fun _ => none) [] ⟨true, ["src"]⟩ ⟨true, ["build"]⟩
    ⟨true, ["src", "sub", "libx.so"]⟩
    (fun _ _ h => absurd h (by simp)) (by decide)
    (fun _ h => absurd h (by simp))

/-! ## Claim C3 -/

theorem preCopyHook_eq (fs : FSModel) (st : CopyState)
    (source target : PurePath) :
    preCopyHook fs st source target =
      (if fs.is_symlink source then
        (fs.resolve source, target.withName (fs.readlink source).name,
          { st with
            symlinks := insertOnce
              (target, fs.readlink source, fs.is_dir (fs.resolve source))
              st.symlinks })
      else (fs.resolve source, target, st)) := rfl

theorem preCopyHook_fst (fs : FSModel) (st : CopyState)
    (source target : PurePath) :
    (preCopyHook fs st source target).1 = fs.resolve source := by
  rw [preCopyHook_eq]
  cases h : fs.is_symlink source <;> simp [h]

theorem preCopyHook_target (fs : FSModel) (st : CopyState)
    (source target : PurePath) :
    (preCopyHook fs st source target).2.1 = preTargetOf fs source target := by
  rw [preCopyHook_eq]
  unfold preTargetOf
  cases h : fs.is_symlink source <;> simp [h]

theorem preCopyHook_files (fs : FSModel) (st : CopyState)
    (source target : PurePath) :
    (preCopyHook fs st source target).2.2.files_copied = st.files_copied := by
  rw [preCopyHook_eq]
  cases h : fs.is_symlink source <;> simp [h]

theorem preCopyHook_triple_mem (fs : FSModel) (st : CopyState)
    (source target : PurePath) (h : fs.is_symlink source = true) :
    (target, fs.readlink source, fs.is_dir (fs.resolve source)) ∈
      (preCopyHook fs st source target).2.2.symlinks := by
  rw [preCopyHook_eq]
  simp only [h, if_pos]
  exact mem_insertOnce_self _ _

theorem preCopyHook_symlinks_mono (fs : FSModel) (st : CopyState)
    (source target : PurePath)
    (tr : PurePath × PurePath × Bool) (h : tr ∈ st.symlinks) :
    tr ∈ (preCopyHook fs st source target).2.2.symlinks := by
  rw [preCopyHook_eq]
  cases hs : fs.is_symlink source <;> simp [hs]
  · exact h
  · exact mem_insertOnce_of_mem _ h

theorem preCopyHook_of_sat (fs : FSModel) (st : CopyState)
    (source target : PurePath)
    (h : fs.is_symlink source = true →
      (target, fs.readlink source, fs.is_dir (fs.resolve source)) ∈
        st.symlinks) :
    preCopyHook fs st source target =
      (fs.resolve source, preTargetOf fs source target, st) := by
  rw [preCopyHook_eq]
  unfold preTargetOf
  cases hs : fs.is_symlink source
  · simp [hs]
  · simp only [hs, if_pos]
    rw [insertOnce_of_mem (h hs)]

theorem copyFileAux_eq (fs : FSModel) (cfg : BinPolicy)
    (postHook : CopyState → PurePath → PurePath → Bool →
      CopyState × List CopyEvent)
    (st : CopyState) (source target : PurePath) (c : Bool) :
    copyFileAux fs cfg postHook st source target c =
      (if !(Freezer.shouldCopyFile cfg source) then (st, [])
       else if (preCopyHook fs st source target).2.1 ∈
           (preCopyHook fs st source target).2.2.files_copied then
         ((preCopyHook fs st source target).2.2, [])
       else if (preCopyHook fs st source target).1 =
           (preCopyHook fs st source target).2.1 then
         ((preCopyHook fs st source target).2.2, [])
       else
         ((postHook { (preCopyHook fs st source target).2.2 with
             files_copied := insertOnce
               (preCopyHook fs st source target).2.1
               (preCopyHook fs st source target).2.2.files_copied }
           (preCopyHook fs st source target).1
           (preCopyHook fs st source target).2.1 c).1,
          CopyEvent.copyBytes (preCopyHook fs st source target).1
            (preCopyHook fs st source target).2.1 ::
          (postHook { (preCopyHook fs st source target).2.2 with
             files_copied := insertOnce
               (preCopyHook fs st source target).2.1
               (preCopyHook fs st source target).2.2.files_copied }
           (preCopyHook fs st source target).1
           (preCopyHook fs st source target).2.1 c).2)) := rfl

theorem copyFileAux_files_mono (fs : FSModel) (cfg : BinPolicy)
    (postHook : CopyState → PurePath → PurePath → Bool →
      CopyState × List CopyEvent)
    (hfiles : ∀ st s t c p, p ∈ st.files_copied →
      p ∈ (postHook st s t c).1.files_copied)
    (st : CopyState) (s t : PurePath) (c : Bool) (p : PurePath)
    (hp : p ∈ st.files_copied) :
    p ∈ (copyFileAux fs cfg postHook st s t c).1.files_copied := by
  rw [copyFileAux_eq]
  split
  · exact hp
  · split
    · rw [preCopyHook_files]
      exact hp
    · split
      · rw [preCopyHook_files]
        exact hp
      · refine hfiles _ _ _ _ _ ?_
        show p ∈ insertOnce (preCopyHook fs st s t).2.1
          (preCopyHook fs st s t).2.2.files_copied
        rw [preCopyHook_files]
        exact mem_insertOnce_of_mem _ hp

theorem copyFileAux_events_structure (fs : FSModel) (cfg : BinPolicy)
    (postHook : CopyState → PurePath → PurePath → Bool →
      CopyState × List CopyEvent)
    (hsilent : ∀ st s t c, (postHook st s t c).2 = [])
    (hfiles : ∀ st s t c p, p ∈ st.files_copied →
      p ∈ (postHook st s t c).1.files_copied)
    (st : CopyState) (s t : PurePath) (c : Bool) :
    (copyFileAux fs cfg postHook st s t c).2 = [] ∨
    ((copyFileAux fs cfg postHook st s t c).2 =
      [CopyEvent.copyBytes (fs.resolve s) (preTargetOf fs s t)] ∧
     preTargetOf fs s t ∉ st.files_copied ∧
     preTargetOf fs s t ∈
       (copyFileAux fs cfg postHook st s t c).1.files_copied) := by
  rw [copyFileAux_eq]
  split
  · exact Or.inl rfl
  · split
    · exact Or.inl rfl
    · split
      · exact Or.inl rfl
      · rename_i hsc hmem heq
        refine Or.inr ⟨?_, ?_, ?_⟩
        · rw [hsilent, preCopyHook_fst, preCopyHook_target]
        · rw [← preCopyHook_target fs st s t, ← preCopyHook_files fs st s t]
          exact hmem
        · refine hfiles _ _ _ _ _ ?_
          rw [← preCopyHook_target fs st s t]
          exact mem_insertOnce_self _ _

theorem runCopies_cons (fs : FSModel) (cfg : BinPolicy)
    (postHook : CopyState → PurePath → PurePath → Bool →
      CopyState × List CopyEvent)
    (s t : PurePath) (c : Bool)
    (rest : List (PurePath × PurePath × Bool)) (st : CopyState) :
    runCopies fs cfg postHook ((s, t, c) :: rest) st =
      ((runCopies fs cfg postHook rest
          (copyFileAux fs cfg postHook st s t c).1).1,
       (copyFileAux fs cfg postHook st s t c).2 ++
        (runCopies fs cfg postHook rest
          (copyFileAux fs cfg postHook st s t c).1).2) := rfl

theorem runCopies_files_mono (fs : FSModel) (cfg : BinPolicy)
    (postHook : CopyState → PurePath → PurePath → Bool →
      CopyState × List CopyEvent)
    (hfiles : ∀ st s t c p, p ∈ st.files_copied →
      p ∈ (postHook st s t c).1.files_copied) :
    ∀ (reqs : List (PurePath × PurePath × Bool)) (st : CopyState)
      (p : PurePath), p ∈ st.files_copied →
      p ∈ (runCopies fs cfg postHook reqs st).1.files_copied := by
  intro reqs
  induction reqs with
  | nil =>
    intro st p hp
    exact hp
  | cons req rest ih =>
    intro st p hp
    obtain ⟨s, t, c⟩ := req
    rw [runCopies_cons]
    exact ih _ p (copyFileAux_files_mono fs cfg postHook hfiles st s t c p hp)

theorem runCopies_events_fresh (fs : FSModel) (cfg : BinPolicy)
    (postHook : CopyState → PurePath → PurePath → Bool →
      CopyState × List CopyEvent)
    (hsilent : ∀ st s t c, (postHook st s t c).2 = [])
    (hfiles : ∀ st s t c p, p ∈ st.files_copied →
      p ∈ (postHook st s t c).1.files_copied) :
    ∀ (reqs : List (PurePath × PurePath × Bool)) (st : CopyState),
      (∀ e ∈ (runCopies fs cfg postHook reqs st).2,
        e.evTarget ∉ st.files_copied ∧
        e.evTarget ∈ (runCopies fs cfg postHook reqs st).1.files_copied) ∧
      ((runCopies fs cfg postHook reqs st).2).Pairwise
        (fun a b => a.evTarget ≠ b.evTarget) := by
  intro reqs
  induction reqs with
  | nil =>
    intro st
    exact ⟨fun e he => absurd he (List.not_mem_nil e), List.Pairwise.nil⟩
  | cons req rest ih =>
    intro st
    obtain ⟨s, t, c⟩ := req
    rw [runCopies_cons]
    obtain ⟨ihfresh, ihpair⟩ := ih (copyFileAux fs cfg postHook st s t c).1
    rcases copyFileAux_events_structure fs cfg postHook hsilent hfiles
        st s t c with h1 | ⟨h1, hnotin, hin⟩
    · rw [h1]
      refine ⟨?_, by simpa using ihpair⟩
      intro e he
      rw [List.nil_append] at he
      obtain ⟨hfresh, hfin⟩ := ihfresh e he
      refine ⟨?_, hfin⟩
      intro hmem
      exact hfresh (copyFileAux_files_mono fs cfg postHook hfiles st s t c
        _ hmem)
    · rw [h1]
      constructor
      · intro e he
        rcases List.mem_append.mp he with he1 | he2
        · have : e = CopyEvent.copyBytes (fs.resolve s) (preTargetOf fs s t)
            := by simpa using he1
          subst this
          refine ⟨by simpa using hnotin, ?_⟩
          exact runCopies_files_mono fs cfg postHook hfiles rest _ _
            (by simpa using hin)
        · obtain ⟨hfresh, hfin⟩ := ihfresh e he2
          refine ⟨?_, hfin⟩
          intro hmem
          exact hfresh (copyFileAux_files_mono fs cfg postHook hfiles
            st s t c _ hmem)
      · rw [List.pairwise_append]
        refine ⟨List.pairwise_singleton _ _, ihpair, ?_⟩
        intro a ha b hb
        have ha2 : a = CopyEvent.copyBytes (fs.resolve s)
            (preTargetOf fs s t) := by simpa using ha
        subst ha2
        obtain ⟨hbfresh, _⟩ := ihfresh b hb
        intro hab
        apply hbfresh
        rw [← hab]
        simpa using hin

/-- Claim C3: the copy operation is idempotent against the copied-file
set: re-running _copy_file with the same arguments after a first call
returns the same state and performs no byte copy; a request whose
(post-hook) target is already in files_copied, or whose resolved
source equals the target, performs no byte copy and leaves
files_copied unchanged; and across any sequence of copy requests every
target path receives at most one byte copy.  The post-copy hook is
abstract, assumed only to preserve membership of the copied-file and
deferred-symlink sets (which the recursive dependent copies of the
real hooks do). -/
theorem copy_file_idempotent_noop :
    (∀ (fs : FSModel) (cfg : BinPolicy)
       (postHook : CopyState → PurePath → PurePath → Bool →
         CopyState × List CopyEvent),
      (∀ st s t c p, p ∈ st.files_copied →
        p ∈ (postHook st s t c).1.files_copied) →
      (∀ st s t c tr, tr ∈ st.symlinks →
        tr ∈ (postHook st s t c).1.symlinks) →
      ∀ (st : CopyState) (s t : PurePath) (c : Bool),
        copyFileAux fs cfg postHook
          (copyFileAux fs cfg postHook st s t c).1 s t c =
          ((copyFileAux fs cfg postHook st s t c).1, [])) ∧
    (∀ (fs : FSModel) (cfg : BinPolicy)
       (postHook : CopyState → PurePath → PurePath → Bool →
         CopyState × List CopyEvent)
       (st : CopyState) (s t : PurePath) (c : Bool),
      ((preCopyHook fs st s t).2.1 ∈
          (preCopyHook fs st s t).2.2.files_copied ∨
        (preCopyHook fs st s t).1 = (preCopyHook fs st s t).2.1) →
      (copyFileAux fs cfg postHook st s t c).2 = [] ∧
      (copyFileAux fs cfg postHook st s t c).1.files_copied =
        st.files_copied) ∧
    (∀ (fs : FSModel) (cfg : BinPolicy)
       (postHook : CopyState → PurePath → PurePath → Bool →
         CopyState × List CopyEvent),
      (∀ st s t c, (postHook st s t c).2 = []) →
      (∀ st s t c p, p ∈ st.files_copied →
        p ∈ (postHook st s t c).1.files_copied) →
      ∀ (reqs : List (PurePath × PurePath × Bool)) (st : CopyState),
        ((runCopies fs cfg postHook reqs st).2).Pairwise
          (fun a b => a.evTarget ≠ b.evTarget)) := by
  refine ⟨?_, ?_, ?_⟩
  · intro fs cfg postHook hfiles hlinks st s t c
    by_cases hsc : Freezer.shouldCopyFile cfg s = true
    · have hsat0 : fs.is_symlink s = true →
          (t, fs.readlink s, fs.is_dir (fs.resolve s)) ∈
            (preCopyHook fs st s t).2.2.symlinks :=
        fun h => preCopyHook_triple_mem fs st s t h
      by_cases hmem : (preCopyHook fs st s t).2.1 ∈
          (preCopyHook fs st s t).2.2.files_copied
      · have hr : copyFileAux fs cfg postHook st s t c =
            ((preCopyHook fs st s t).2.2, []) := by
          rw [copyFileAux_eq]
          simp [hsc, hmem]
        rw [hr]
        rw [copyFileAux_eq, preCopyHook_of_sat fs _ s t hsat0]
        have hT : preTargetOf fs s t ∈
            (preCopyHook fs st s t).2.2.files_copied := by
          rw [← preCopyHook_target fs st s t]
          exact hmem
        simp [hsc, hT]
      · by_cases heq : (preCopyHook fs st s t).1 =
            (preCopyHook fs st s t).2.1
        · have hr : copyFileAux fs cfg postHook st s t c =
              ((preCopyHook fs st s t).2.2, []) := by
            rw [copyFileAux_eq]
            simp [hsc, hmem, heq]
          rw [hr]
          rw [copyFileAux_eq, preCopyHook_of_sat fs _ s t hsat0]
          have heq2 : fs.resolve s = preTargetOf fs s t := by
            rw [← preCopyHook_fst fs st s t, ← preCopyHook_target fs st s t]
            exact heq
          by_cases hT : preTargetOf fs s t ∈
              (preCopyHook fs st s t).2.2.files_copied
          · simp [hsc, hT]
          · simp [hsc, hT, heq2]
        · have hr : copyFileAux fs cfg postHook st s t c =
              ((postHook { (preCopyHook fs st s t).2.2 with
                  files_copied := insertOnce (preCopyHook fs st s t).2.1
                    (preCopyHook fs st s t).2.2.files_copied }
                (preCopyHook fs st s t).1 (preCopyHook fs st s t).2.1 c).1,
               CopyEvent.copyBytes (preCopyHook fs st s t).1
                  (preCopyHook fs st s t).2.1 ::
               (postHook { (preCopyHook fs st s t).2.2 with
                  files_copied := insertOnce (preCopyHook fs st s t).2.1
                    (preCopyHook fs st s t).2.2.files_copied }
                (preCopyHook fs st s t).1 (preCopyHook fs st s t).2.1
                c).2) := by
            rw [copyFileAux_eq]
            simp [hsc, hmem, heq]
          rw [hr]
          have hsat1 : fs.is_symlink s = true →
              (t, fs.readlink s, fs.is_dir (fs.resolve s)) ∈
                (postHook { (preCopyHook fs st s t).2.2 with
                    files_copied := insertOnce (preCopyHook fs st s t).2.1
                      (preCopyHook fs st s t).2.2.files_copied }
                  (preCopyHook fs st s t).1 (preCopyHook fs st s t).2.1
                  c).1.symlinks := by
            intro h
            exact hlinks _ _ _ _ _ (hsat0 h)
          rw [copyFileAux_eq, preCopyHook_of_sat fs _ s t hsat1]
          have hT : preTargetOf fs s t ∈
              (postHook { (preCopyHook fs st s t).2.2 with
                  files_copied := insertOnce (preCopyHook fs st s t).2.1
                    (preCopyHook fs st s t).2.2.files_copied }
                (preCopyHook fs st s t).1 (preCopyHook fs st s t).2.1
                c).1.files_copied := by
            refine hfiles _ _ _ _ _ ?_
            rw [← preCopyHook_target fs st s t]
            exact mem_insertOnce_self _ _
          simp [hsc, hT]
    · have hr : copyFileAux fs cfg postHook st s t c = (st, []) := by
        rw [copyFileAux_eq]
        simp [hsc]
      rw [hr, hr]
  · intro fs cfg postHook st s t c h
    rw [copyFileAux_eq]
    by_cases hsc : Freezer.shouldCopyFile cfg s = true
    · rcases h with hmem | heq
      · have hmem2 : (preCopyHook fs st s t).2.1 ∈ st.files_copied := by
          rw [← preCopyHook_files fs st s t]
          exact hmem
        simp [hsc, hmem2, preCopyHook_files]
      · by_cases hmem2 : (preCopyHook fs st s t).2.1 ∈ st.files_copied
        · simp [hsc, hmem2, preCopyHook_files]
        · simp [hsc, hmem2, heq, preCopyHook_files]
    · simp [hsc]
  · intro fs cfg postHook hsilent hfiles reqs st
    exact (runCopies_events_fresh fs cfg postHook hsilent hfiles reqs st).2

/-- Witness for C3: a concrete second copy of the same request is a
no-op on the state and performs no byte copy. -/
theorem copy_file_idempotent_noop_witness :
    copyFileAux
      (FSModel.mk id (fun _ => false) id (fun _ => false))
      ⟨[], [], [], [], [], [], [], []⟩ nullHook
      (copyFileAux (FSModel.mk id (fun _ => false) id (fun _ => false))
        ⟨[], [], [], [], [], [], [], []⟩ nullHook ⟨[], []⟩
        ⟨true, ["src", "liba.so"]⟩ ⟨true, ["build", "liba.so"]⟩ true).1
      ⟨true, ["src", "liba.so"]⟩ ⟨true, ["build", "liba.so"]⟩ true =
    ((copyFileAux (FSModel.mk id (fun _ => false) id (fun _ => false))
        ⟨[], [], [], [], [], [], [], []⟩ nullHook ⟨[], []⟩
        ⟨true, ["src", "liba.so"]⟩ ⟨true, ["build", "liba.so"]⟩ true).1,
      []) :=
  copy_file_idempotent_noop.1
    (FSModel.mk id (fun _ => false) id (fun _ => false))
    ⟨[], [], [], [], [], [], [], []⟩ nullHook
    (fun _ _ _ _ _ h => h) (fun _ _ _ _ _ h => h)
    ⟨[], []⟩ ⟨true, ["src", "liba.so"]⟩ ⟨true, ["build", "liba.so"]⟩ true

/-! ## Claim C4 -/

theorem copyFileAux_events_copyBytes (fs : FSModel) (cfg : BinPolicy)
    (postHook : CopyState → PurePath → PurePath → Bool →
      CopyState × List CopyEvent)
    (honly : ∀ st s t c, ∀ e ∈ (postHook st s t c).2,
      ∃ x y, e = CopyEvent.copyBytes x y)
    (st : CopyState) (s t : PurePath) (c : Bool) :
    ∀ e ∈ (copyFileAux fs cfg postHook st s t c).2,
      ∃ x y, e = CopyEvent.copyBytes x y := by
  rw [copyFileAux_eq]
  split
  · intro e he
    exact absurd he (List.not_mem_nil e)
  · split
    · intro e he
      exact absurd he (List.not_mem_nil e)
    · split
      · intro e he
        exact absurd he (List.not_mem_nil e)
      · intro e he
        rcases List.mem_cons.mp he with h1 | h2
        · exact ⟨_, _, h1⟩
        · exact honly _ _ _ _ e h2

theorem runCopies_events_copyBytes (fs : FSModel) (cfg : BinPolicy)
    (postHook : CopyState → PurePath → PurePath → Bool →
      CopyState × List CopyEvent)
    (honly : ∀ st s t c, ∀ e ∈ (postHook st s t c).2,
      ∃ x y, e = CopyEvent.copyBytes x y) :
    ∀ (reqs : List (PurePath × PurePath × Bool)) (st : CopyState),
      ∀ e ∈ (runCopies fs cfg postHook reqs st).2,
        ∃ x y, e = CopyEvent.copyBytes x y := by
  intro reqs
  induction reqs with
  | nil =>
    intro st e he
    exact absurd he (List.not_mem_nil e)
  | cons req rest ih =>
    intro st e he
    obtain ⟨s, t, c⟩ := req
    rw [runCopies_cons] at he
    rcases List.mem_append.mp he with h1 | h2
    · exact copyFileAux_events_copyBytes fs cfg postHook honly st s t c e h1
    · exact ih _ e h2

theorem postFreezeHook_events_makeLink (exists_at : PurePath → Bool)
    (st : CopyState) :
    ∀ e ∈ postFreezeHook exists_at st, ∃ x y, e = CopyEvent.makeLink x y := by
  intro e he
  unfold postFreezeHook at he
  obtain ⟨tr, _, htr⟩ := List.mem_filterMap.mp he
  by_cases hex : exists_at tr.1 = true
  · rw [if_pos hex] at htr
    exact absurd htr (by simp)
  · rw [if_neg hex] at htr
    exact ⟨tr.1, tr.2.1, (Option.some.inj htr).symm⟩

/-- Claim C4: a symbolic-link source is never written at copy time:
the pre-copy hook redirects the copy to the resolved real file under
the real name and records the (target, link payload, is-directory)
triple in the deferred-symlink set; the copy phase emits only
byte-copy events, and in a whole freeze run the trace splits into the
byte copies followed by the link materializations, so every link is
created after every byte copy, regardless of discovery order. -/
theorem symlink_deferral_ordering :
    (∀ (fs : FSModel) (st : CopyState) (s t : PurePath),
      fs.is_symlink s = true →
      (preCopyHook fs st s t).1 = fs.resolve s ∧
      (preCopyHook fs st s t).2.1 =
        t.withName (fs.readlink s).name ∧
      (t, fs.readlink s, fs.is_dir (fs.resolve s)) ∈
        (preCopyHook fs st s t).2.2.symlinks) ∧
    (∀ (fs : FSModel) (cfg : BinPolicy)
       (postHook : CopyState → PurePath → PurePath → Bool →
         CopyState × List CopyEvent),
      (∀ st s t c, ∀ e ∈ (postHook st s t c).2,
        ∃ x y, e = CopyEvent.copyBytes x y) →
      ∀ (reqs : List (PurePath × PurePath × Bool)) (st : CopyState),
        ∀ e ∈ (runCopies fs cfg postHook reqs st).2,
          ∃ x y, e = CopyEvent.copyBytes x y) ∧
    (∀ (fs : FSModel) (cfg : BinPolicy)
       (postHook : CopyState → PurePath → PurePath → Bool →
         CopyState × List CopyEvent),
      (∀ st s t c, ∀ e ∈ (postHook st s t c).2,
        ∃ x y, e = CopyEvent.copyBytes x y) →
      ∀ (reqs : List (PurePath × PurePath × Bool)) (st : CopyState)
        (exists_at : PurePath → Bool),
        ∃ cs ls, (runFreeze fs cfg postHook reqs st exists_at).2 =
          cs ++ ls ∧
        (∀ e ∈ cs, ∃ x y, e = CopyEvent.copyBytes x y) ∧
        (∀ e ∈ ls, ∃ x y, e = CopyEvent.makeLink x y)) := by
  refine ⟨?_, ?_, ?_⟩
  · intro fs st s t h
    refine ⟨preCopyHook_fst fs st s t, ?_, preCopyHook_triple_mem fs st s t h⟩
    rw [preCopyHook_target]
    unfold preTargetOf
    rw [if_pos h]
  · intro fs cfg postHook honly reqs st
    exact runCopies_events_copyBytes fs cfg postHook honly reqs st
  · intro fs cfg postHook honly reqs st exists_at
    refine ⟨(runCopies fs cfg postHook reqs st).2,
      postFreezeHook exists_at (runCopies fs cfg postHook reqs st).1,
      rfl, ?_, ?_⟩
    · exact runCopies_events_copyBytes fs cfg postHook honly reqs st
    · exact postFreezeHook_events_makeLink exists_at _

/-- Witness for C4: for a concrete symbolic link /src/liblink.so
pointing at liba.so.1, the pre-copy hook resolves the copy to the real
file and records the deferred triple; a concrete one-request run emits
its byte copy before the post-freeze pass emits any link. -/
theorem symlink_deferral_ordering_witness :
    ((preCopyHook
      (FSModel.mk (fun _ => ⟨true, ["src", "liba.so.1"]⟩) (fun _ => true)
        (fun _ => ⟨false, ["liba.so.1"]⟩) (fun _ => false))
      ⟨[], []⟩ ⟨true, ["src", "liblink.so"]⟩
      ⟨true, ["build", "liblink.so"]⟩).2.1 =
      PurePath.withName ⟨true, ["build", "liblink.so"]⟩
        (PurePath.name ⟨false, ["liba.so.1"]⟩)) ∧
    (∃ cs ls,
      (runFreeze
        (FSModel.mk (fun _ => ⟨true, ["src", "liba.so.1"]⟩) (fun _ => true)
          (fun _ => ⟨false, ["liba.so.1"]⟩) (fun _ => false))
        ⟨[], [], [], [], [], [], [], []⟩ nullHook
        [(⟨true, ["src", "liblink.so"]⟩, ⟨true, ["build", "liblink.so"]⟩,
          true)]
        ⟨[], []⟩ (fun _ => false)).2 = cs ++ ls ∧
      (∀ e ∈ cs, ∃ x y, e = CopyEvent.copyBytes x y) ∧
      (∀ e ∈ ls, ∃ x y, e = CopyEvent.makeLink x y)) :=
  ⟨(symlink_deferral_ordering.1
      (FSModel.mk (fun _ => ⟨true, ["src", "liba.so.1"]⟩) (fun _ => true)
        (fun _ => ⟨false, ["liba.so.1"]⟩) (fun _ => false))
      ⟨[], []⟩ ⟨true, ["src", "liblink.so"]⟩
      ⟨true, ["build", "liblink.so"]⟩ rfl).2.1,
    symlink_deferral_ordering.2.2
      (FSModel.mk (fun _ => ⟨true, ["src", "liba.so.1"]⟩) (fun _ => true)
        (fun _ => ⟨false, ["liba.so.1"]⟩) (fun _ => false))
      ⟨[], [], [], [], [], [], [], []⟩ nullHook
      (fun _ _ _ _ e he => absurd he (List.not_mem_nil e))
      [(⟨true, ["src", "liblink.so"]⟩, ⟨true, ["build", "liblink.so"]⟩,
        true)]
      ⟨[], []⟩ (fun _ => false)⟩

/-! ## Claim C8 -/

theorem copyFileExc_eq (fs : FSModel) (faults : FSFaults)
    (cfg : BinPolicy)
    (postHook : CopyState → PurePath → PurePath → Bool →
      CopyState × List CopyEvent)
    (st : CopyState) (source target : PurePath)
    (cdf include_mode : Bool) :
    copyFileExc fs faults cfg postHook st source target cdf include_mode =
      (if !(Freezer.shouldCopyFile cfg source) then .ok (st, [], [])
       else if (preCopyHook fs st source target).2.1 ∈
           (preCopyHook fs st source target).2.2.files_copied then
         .ok ((preCopyHook fs st source target).2.2, [], [])
       else if (preCopyHook fs st source target).1 =
           (preCopyHook fs st source target).2.1 then
         .ok ((preCopyHook fs st source target).2.2, [], [])
       else if !(faults.copyfile_ok (preCopyHook fs st source target).1
           (preCopyHook fs st source target).2.1) then
         .error (.osError "shutil.copyfile")
       else if include_mode && !(faults.copymode_ok
           (preCopyHook fs st source target).1
           (preCopyHook fs st source target).2.1) then
         .error (.osError "shutil.copymode")
       else if include_mode && !(faults.copystat_ok
           (preCopyHook fs st source target).1
           (preCopyHook fs st source target).2.1) then
         .error (.osError "shutil.copystat")
       else
         .ok ((postHook { (preCopyHook fs st source target).2.2 with
             files_copied := insertOnce
               (preCopyHook fs st source target).2.1
               (preCopyHook fs st source target).2.2.files_copied }
           (preCopyHook fs st source target).1
           (preCopyHook fs st source target).2.1 cdf).1,
          CopyEvent.copyBytes (preCopyHook fs st source target).1
            (preCopyHook fs st source target).2.1 ::
          (postHook { (preCopyHook fs st source target).2.2 with
             files_copied := insertOnce
               (preCopyHook fs st source target).2.1
               (preCopyHook fs st source target).2.2.files_copied }
           (preCopyHook fs st source target).1
           (preCopyHook fs st source target).2.1 cdf).2,
          if !include_mode && !(faults.copystat_ok
              (preCopyHook fs st source target).1
              (preCopyHook fs st source target).2.1) then
            ["WARNING: unable to copy file metadata"]
          else [])) := rfl

theorem darwinCopyFileRecursion_eq (fs : FSModel) (faults : FSFaults)
    (cfg : BinPolicy)
    (postHook : CopyState → PurePath → PurePath → Bool →
      CopyState × List CopyEvent)
    (st : CopyState) (source target : PurePath)
    (cdf include_mode : Bool) :
    darwinCopyFileRecursion fs faults cfg postHook st source target cdf
        include_mode =
      (if !(Freezer.shouldCopyFile cfg source) then .ok (st, [])
       else if (preCopyHook fs st source target).2.1 ∈
           (preCopyHook fs st source target).2.2.files_copied then
         .ok ((preCopyHook fs st source target).2.2, [])
       else if (preCopyHook fs st source target).1 =
           (preCopyHook fs st source target).2.1 then
         .ok ((preCopyHook fs st source target).2.2, [])
       else if !(faults.copyfile_ok (preCopyHook fs st source target).1
           (preCopyHook fs st source target).2.1) then
         .error (.osError "shutil.copyfile")
       else if !(faults.copystat_ok (preCopyHook fs st source target).1
           (preCopyHook fs st source target).2.1) then
         .error (.osError "shutil.copystat")
       else if include_mode && !(faults.copymode_ok
           (preCopyHook fs st source target).1
           (preCopyHook fs st source target).2.1) then
         .error (.osError "shutil.copymode")
       else
         .ok ((postHook { (preCopyHook fs st source target).2.2 with
             files_copied := insertOnce
               (preCopyHook fs st source target).2.1
               (preCopyHook fs st source target).2.2.files_copied }
           (preCopyHook fs st source target).1
           (preCopyHook fs st source target).2.1 cdf).1,
          CopyEvent.copyBytes (preCopyHook fs st source target).1
            (preCopyHook fs st source target).2.1 ::
          (postHook { (preCopyHook fs st source target).2.2 with
             files_copied := insertOnce
               (preCopyHook fs st source target).2.1
               (preCopyHook fs st source target).2.2.files_copied }
           (preCopyHook fs st source target).1
           (preCopyHook fs st source target).2.1 cdf).2)) := rfl

/-- Counterexample for C8: a metadata-copy failure can abort the copy.
With include_mode set (as for executables), shutil.copystat runs
unguarded, so a copystat failure after a successful byte copy
propagates as an error instead of degrading to a warning. -/
theorem metadata_failure_aborts_cx :
    copyFileExc
      (FSModel.mk id (fun _ => false) id (fun _ => false))
      (FSFaults.mk (fun _ _ => true) (fun _ _ => true) (fun _ _ => false))
      ⟨[], [], [], [], [], [], [], []⟩ nullHook ⟨[], []⟩
      ⟨true, ["src", "app"]⟩ ⟨true, ["build", "app"]⟩ true true =
    .error (.osError "shutil.copystat") := rfl

/-- Amended C8: only in the plain (include_mode = false) branch of the
base copy operation is a metadata-copy failure after a successful byte
copy non-fatal: the copy returns successfully with the warning, the
target is recorded in the copied-file set and the post-copy hook still
runs.  With include_mode, and in the Darwin recursion variant (where
shutil.copystat is unguarded), the failure propagates. -/
theorem metadata_failure_nonfatal_plain_mode :
    (∀ (fs : FSModel) (faults : FSFaults) (cfg : BinPolicy)
       (postHook : CopyState → PurePath → PurePath → Bool →
         CopyState × List CopyEvent)
       (st : CopyState) (s t : PurePath) (cdf : Bool),
      Freezer.shouldCopyFile cfg s = true →
      (preCopyHook fs st s t).2.1 ∉
        (preCopyHook fs st s t).2.2.files_copied →
      (preCopyHook fs st s t).1 ≠ (preCopyHook fs st s t).2.1 →
      faults.copyfile_ok (preCopyHook fs st s t).1
        (preCopyHook fs st s t).2.1 = true →
      faults.copystat_ok (preCopyHook fs st s t).1
        (preCopyHook fs st s t).2.1 = false →
      copyFileExc fs faults cfg postHook st s t cdf false =
        .ok ((postHook { (preCopyHook fs st s t).2.2 with
            files_copied := insertOnce (preCopyHook fs st s t).2.1
              (preCopyHook fs st s t).2.2.files_copied }
          (preCopyHook fs st s t).1 (preCopyHook fs st s t).2.1 cdf).1,
         CopyEvent.copyBytes (preCopyHook fs st s t).1
            (preCopyHook fs st s t).2.1 ::
         (postHook { (preCopyHook fs st s t).2.2 with
            files_copied := insertOnce (preCopyHook fs st s t).2.1
              (preCopyHook fs st s t).2.2.files_copied }
          (preCopyHook fs st s t).1 (preCopyHook fs st s t).2.1 cdf).2,
         ["WARNING: unable to copy file metadata"])) ∧
    (∀ (fs : FSModel) (faults : FSFaults) (cfg : BinPolicy)
       (postHook : CopyState → PurePath → PurePath → Bool →
         CopyState × List CopyEvent)
       (st : CopyState) (s t : PurePath) (cdf : Bool),
      (∀ st2 a b c p, p ∈ st2.files_copied →
        p ∈ (postHook st2 a b c).1.files_copied) →
      Freezer.shouldCopyFile cfg s = true →
      (preCopyHook fs st s t).2.1 ∉
        (preCopyHook fs st s t).2.2.files_copied →
      (preCopyHook fs st s t).1 ≠ (preCopyHook fs st s t).2.1 →
      faults.copyfile_ok (preCopyHook fs st s t).1
        (preCopyHook fs st s t).2.1 = true →
      faults.copystat_ok (preCopyHook fs st s t).1
        (preCopyHook fs st s t).2.1 = false →
      ∀ res, copyFileExc fs faults cfg postHook st s t cdf false =
        .ok res → (preCopyHook fs st s t).2.1 ∈ res.1.files_copied) ∧
    (∀ (fs : FSModel) (faults : FSFaults) (cfg : BinPolicy)
       (postHook : CopyState → PurePath → PurePath → Bool →
         CopyState × List CopyEvent)
       (st : CopyState) (s t : PurePath) (cdf include_mode : Bool),
      Freezer.shouldCopyFile cfg s = true →
      (preCopyHook fs st s t).2.1 ∉
        (preCopyHook fs st s t).2.2.files_copied →
      (preCopyHook fs st s t).1 ≠ (preCopyHook fs st s t).2.1 →
      faults.copyfile_ok (preCopyHook fs st s t).1
        (preCopyHook fs st s t).2.1 = true →
      faults.copystat_ok (preCopyHook fs st s t).1
        (preCopyHook fs st s t).2.1 = false →
      darwinCopyFileRecursion fs faults cfg postHook st s t cdf
        include_mode = .error (.osError "shutil.copystat")) := by
  have main : ∀ (fs : FSModel) (faults : FSFaults) (cfg : BinPolicy)
      (postHook : CopyState → PurePath → PurePath → Bool →
        CopyState × List CopyEvent)
      (st : CopyState) (s t : PurePath) (cdf : Bool),
      Freezer.shouldCopyFile cfg s = true →
      (preCopyHook fs st s t).2.1 ∉
        (preCopyHook fs st s t).2.2.files_copied →
      (preCopyHook fs st s t).1 ≠ (preCopyHook fs st s t).2.1 →
      faults.copyfile_ok (preCopyHook fs st s t).1
        (preCopyHook fs st s t).2.1 = true →
      faults.copystat_ok (preCopyHook fs st s t).1
        (preCopyHook fs st s t).2.1 = false →
      copyFileExc fs faults cfg postHook st s t cdf false =
        .ok ((postHook { (preCopyHook fs st s t).2.2 with
            files_copied := insertOnce (preCopyHook fs st s t).2.1
              (preCopyHook fs st s t).2.2.files_copied }
          (preCopyHook fs st s t).1 (preCopyHook fs st s t).2.1 cdf).1,
         CopyEvent.copyBytes (preCopyHook fs st s t).1
            (preCopyHook fs st s t).2.1 ::
         (postHook { (preCopyHook fs st s t).2.2 with
            files_copied := insertOnce (preCopyHook fs st s t).2.1
              (preCopyHook fs st s t).2.2.files_copied }
          (preCopyHook fs st s t).1 (preCopyHook fs st s t).2.1 cdf).2,
         ["WARNING: unable to copy file metadata"]) := by
    intro fs faults cfg postHook st s t cdf hsc hnm hne hcf hcs
    rw [copyFileExc_eq]
    simp [hsc, hnm, hne, hcf, hcs]
  refine ⟨main, ?_, ?_⟩
  · intro fs faults cfg postHook st s t cdf hfiles hsc hnm hne hcf hcs res
      hres
    rw [main fs faults cfg postHook st s t cdf hsc hnm hne hcf hcs] at hres
    have hr := Except.ok.inj hres
    rw [← hr]
    exact hfiles _ _ _ _ _ (mem_insertOnce_self _ _)
  · intro fs faults cfg postHook st s t cdf include_mode hsc hnm hne hcf
      hcs
    rw [darwinCopyFileRecursion_eq]
    simp [hsc, hnm, hne, hcf, hcs]

/-- Witness for the amended C8: a concrete plain-mode copy whose
copystat fails still succeeds with the warning and records its
target. -/
theorem metadata_failure_nonfatal_plain_mode_witness :
    copyFileExc
      (FSModel.mk id (fun _ => false) id (fun _ => false))
      (FSFaults.mk (fun _ _ => true) (fun _ _ => true) (fun _ _ => false))
      ⟨[], [], [], [], [], [], [], []⟩ nullHook ⟨[], []⟩
      ⟨true, ["src", "liba.so"]⟩ ⟨true, ["build", "liba.so"]⟩ true false =
    .ok (⟨[⟨true, ["build", "liba.so"]⟩], []⟩,
      [CopyEvent.copyBytes ⟨true, ["src", "liba.so"]⟩
        ⟨true, ["build", "liba.so"]⟩],
      ["WARNING: unable to copy file metadata"]) := by
  rw [metadata_failure_nonfatal_plain_mode.1
    (FSModel.mk id (fun _ => false) id (fun _ => false))
    (FSFaults.mk (fun _ _ => true) (fun _ _ => true) (fun _ _ => false))
    ⟨[], [], [], [], [], [], [], []⟩ nullHook ⟨[], []⟩
    ⟨true, ["src", "liba.so"]⟩ ⟨true, ["build", "liba.so"]⟩ true
    (by decide) (by decide) (by decide) (by decide) (by decide)]
  rfl
